import Mathlib

/-!
Verification of the Redis checkpoint saver in `src/database/redis.py`.

Python strings are embedded as `List Char`; Python `str.split`, `str.join`,
`sorted`, `max`, `enumerate` and redis glob key matching are modelled by
executable Lean functions below.  The redis backend state is a pair of
association lists (checkpoint hashes and pending-write hashes) plus a TTL
table; redis `KEYS pattern` enumeration returns keys in the (arbitrary)
state order, so quantifying over states covers every backend scan order.
-/

set_option autoImplicit false

/-- Python exception kinds that the adapter can raise. -/
inductive Err where
  | valueError
  | keyError
  | indexError
  | unicodeError
deriving DecidableEq, Repr

/-- Python strings, embedded as lists of characters. -/
abbrev Str := List Char

/-- Python `s.split(sep)` for a single-character separator:
`"".split(":") = [""]`, `"a:".split(":") = ["a", ""]`. -/
def pySplit (sep : Char) : Str → List Str
  | [] => [[]]
  | c :: rest =>
    match pySplit sep rest with
    | [] => []
    | s :: ss => if c = sep then [] :: s :: ss else (c :: s) :: ss

/-- Python `sep.join(xs)` for a single-character separator. -/
def pyJoin (sep : Char) : List Str → Str
  | [] => []
  | [s] => s
  | s :: s' :: rest => s ++ sep :: pyJoin sep (s' :: rest)

/-- Python string comparison `a < b`: lexicographic on code points,
with a proper prefix comparing smaller. -/
def strLt : Str → Str → Bool
  | [], [] => false
  | [], _ :: _ => true
  | _ :: _, [] => false
  | a :: as, b :: bs =>
    if a.toNat < b.toNat then true
    else if a.toNat = b.toNat then strLt as bs
    else false

/-- Python `sorted(..., key=...)` is a stable sort; insertion sort with a
"may precede" boolean comparator is extensionally the same list. -/
def pyInsert {α : Type} (le : α → α → Bool) (a : α) : List α → List α
  | [] => [a]
  | b :: bs => if le a b then a :: b :: bs else b :: pyInsert le a bs

def pySortBy {α : Type} (le : α → α → Bool) : List α → List α
  | [] => []
  | a :: as => pyInsert le a (pySortBy le as)

/-- Redis `KEYS` glob matching restricted to the wildcards the adapter can
produce or meet: `*` matches any character sequence (including the key
separator) and `?` matches exactly one character; all other pattern
characters are literal.  `*` is expanded by trying every suffix of the
candidate, which keeps the recursion structural in the pattern. -/
def globMatch : Str → Str → Bool
  | [], s => s.isEmpty
  | p :: ps, s =>
    if p = '*' then s.tails.any (fun t => globMatch ps t)
    else
      match s with
      | [] => false
      | c :: ks => if p = '?' then globMatch ps ks
                   else if p = c then globMatch ps ks else false

/-- Python `str(n)` for a natural number: decimal digits.  Structural
recursion on a fuel argument so the kernel can evaluate it. -/
def digitChar (d : Nat) : Char :=
  match d with
  | 0 => '0' | 1 => '1' | 2 => '2' | 3 => '3' | 4 => '4'
  | 5 => '5' | 6 => '6' | 7 => '7' | 8 => '8' | _ => '9'

def digitVal (c : Char) : Nat :=
  match c with
  | '0' => 0 | '1' => 1 | '2' => 2 | '3' => 3 | '4' => 4
  | '5' => 5 | '6' => 6 | '7' => 7 | '8' => 8 | '9' => 9
  | _ => 0

def natToStrF : Nat → Nat → Str
  | 0, _ => []
  | fuel + 1, n =>
    if n < 10 then [digitChar n]
    else natToStrF fuel (n / 10) ++ [digitChar (n % 10)]

def natToStr (n : Nat) : Str := natToStrF (n + 1) n

/-- Decimal value of a digit string; used only to show `natToStr` injective. -/
def strVal (s : Str) : Nat := s.foldl (fun a c => 10 * a + digitVal c) 0

/-- Redis hash write (`HSET` on a fresh or existing key with a full field
mapping) over an association-list keyspace: replace in place or append.
The same shape models a Python dict insert, which also keeps the original
position of an existing key. -/
def hset {κ α : Type} [DecidableEq κ] (l : List (κ × α)) (k : κ) (v : α) :
    List (κ × α) :=
  if l.any (fun p => p.1 = k) then
    l.map (fun p => if p.1 = k then (k, v) else p)
  else l ++ [(k, v)]

/-- First-match association lookup (redis `HGETALL` / key fetch). -/
def alookup {κ α : Type} [DecidableEq κ] (l : List (κ × α)) (k : κ) : Option α :=
  match l with
  | [] => none
  | p :: rest => if p.1 = k then some p.2 else alookup rest k

/-! ## Address codec (`redis.py`, `_make_*`/`_parse_*` key helpers) -/

def REDIS_KEY_SEPARATOR : Char := ':'

def _make_redis_checkpoint_key (thread_id checkpoint_ns checkpoint_id : Str) : Str :=
  pyJoin REDIS_KEY_SEPARATOR
    ["checkpoint".toList, thread_id, checkpoint_ns, checkpoint_id]

def _make_redis_checkpoint_writes_key (thread_id checkpoint_ns checkpoint_id task_id : Str)
    (idx : Option Nat) : Str :=
  match idx with
  | none =>
    pyJoin REDIS_KEY_SEPARATOR
      ["writes".toList, thread_id, checkpoint_ns, checkpoint_id, task_id]
  | some i =>
    pyJoin REDIS_KEY_SEPARATOR
      ["writes".toList, thread_id, checkpoint_ns, checkpoint_id, task_id, natToStr i]

structure CheckpointKeyFields where
  thread_id : Str
  checkpoint_ns : Str
  checkpoint_id : Str
deriving DecidableEq, Repr

/-- `_parse_redis_checkpoint_key`: segment 0 must be the kind token
`checkpoint` (else `ValueError`); `parts[1]` raises `IndexError` when there
are fewer than two segments; the namespace is the rejoined middle. -/
def _parse_redis_checkpoint_key (redis_key : Str) : Except Err CheckpointKeyFields :=
  let parts := pySplit REDIS_KEY_SEPARATOR redis_key
  if parts.headD [] ≠ "checkpoint".toList then .error .valueError
  else if parts.length < 2 then .error .indexError
  else .ok { thread_id := parts.getD 1 [],
             checkpoint_ns := pyJoin REDIS_KEY_SEPARATOR ((parts.drop 2).dropLast),
             checkpoint_id := parts.getLastD [] }

structure WritesKeyFields where
  thread_id : Str
  checkpoint_ns : Str
  checkpoint_id : Str
  task_id : Str
  idx : Str
deriving DecidableEq, Repr

/-- `_parse_redis_checkpoint_writes_key`: the `idx` field is kept as the raw
trailing segment string, exactly as the Python code leaves it (it is never
converted back to an integer). Fewer than three segments raises
`IndexError` (at `parts[1]` or `parts[-3]`). -/
def _parse_redis_checkpoint_writes_key (redis_key : Str) : Except Err WritesKeyFields :=
  let parts := pySplit REDIS_KEY_SEPARATOR redis_key
  if parts.headD [] ≠ "writes".toList then .error .valueError
  else if parts.length < 3 then .error .indexError
  else .ok { thread_id := parts.getD 1 [],
             checkpoint_ns :=
               pyJoin REDIS_KEY_SEPARATOR ((parts.drop 2).dropLast.dropLast.dropLast),
             checkpoint_id := parts.getD (parts.length - 3) [],
             task_id := parts.getD (parts.length - 2) [],
             idx := parts.getLastD [] }

/-! ## Data model: serializer capability, stored records, backend state -/

/-- The caller-supplied serializer capability (spec §4.2).  `loads` receives
a Python object that is either `bytes` (as the serializer contract states)
or `str` (what `aget_tuple`/`alist` actually pass after calling
`.decode()` on the stored bytes); the sum type keeps the two apart. -/
structure Serde (V M B : Type) where
  dumps_typed : V → Str × B
  loads_typed : Str × B → V
  dumps : M → B
  loads : B ⊕ Str → M

/-- Checkpoint hash record: the exact field mapping written by `aput`.
Fields that the code writes as `str` and reads back through `.decode()`
round-trip exactly over UTF-8, so they are modelled as strings; the two
payload fields keep the serializer's byte type `B`. -/
structure CheckpointData (B : Type) where
  checkpoint : B
  type_ : Str
  checkpoint_id : Str
  metadata : B
  parent_checkpoint_id : Str
deriving DecidableEq

/-- Pending-write hash record written by `aput_writes`. -/
structure WriteData (B : Type) where
  channel : Str
  type_ : Str
  value : B
deriving DecidableEq

/-- Redis backend state: the checkpoint hashes, the pending-write hashes
and the TTL table.  `KEYS` scans enumerate keys in state order, which is
arbitrary, so theorems quantified over states cover every scan order. -/
structure RedisState (B : Type) where
  checkpoints : List (Str × CheckpointData B)
  writes : List (Str × WriteData B)
  ttls : List (Str × Nat)
deriving DecidableEq

def RedisState.empty {B : Type} : RedisState B := ⟨[], [], []⟩

/-- A `RunnableConfig`'s `configurable` dict: every key may be absent. -/
structure Configurable where
  thread_id : Option Str
  checkpoint_ns : Option Str
  checkpoint_id : Option Str
deriving DecidableEq

/-- The fully-populated config dict produced by the operations. -/
structure ConfigTriple where
  thread_id : Str
  checkpoint_ns : Str
  checkpoint_id : Str
deriving DecidableEq

structure CheckpointTuple (V M : Type) where
  config : ConfigTriple
  checkpoint : V
  metadata : M
  parent_config : Option ConfigTriple
  pending_writes : Option (List (Str × Str × V))
deriving DecidableEq

/-- Python dict subscript `d[k]`: raises `KeyError` when the key is absent. -/
def req {α : Type} : Option α → Except Err α
  | some a => .ok a
  | none => .error .keyError

/-- Python truthiness of an optional string (`if checkpoint_id:` /
`x or y`): `None` and the empty string are falsy. -/
def truthy (o : Option Str) : Option Str :=
  match o with
  | some s => if s = [] then none else some s
  | none => none

/-- Modelled from the spec: langgraph's `get_checkpoint_id` helper is not
part of this repository; per spec §4.5, "If `config` specifies a
`checkpoint_id`, use it directly". -/
def get_checkpoint_id (c : Configurable) : Option Str := c.checkpoint_id

/-! ## Store operations (`AsyncRedisSaver`) -/

/-- `_dump_writes`: serialize each `(channel, value)` pair. -/
def _dump_writes {V M B : Type} (serde : Serde V M B) (writes : List (Str × V)) :
    List (WriteData B) :=
  writes.map (fun cv =>
    let tb := serde.dumps_typed cv.2
    { channel := cv.1, type_ := tb.1, value := tb.2 })

/-- `_load_writes`: deserialize the pending writes of a task/idx dict. -/
def _load_writes {V M B : Type} (serde : Serde V M B)
    (task_id_to_data : List ((Str × Str) × WriteData B)) : List (Str × Str × V) :=
  task_id_to_data.map (fun e =>
    (e.1.1, e.2.channel, serde.loads_typed (e.2.type_, e.2.value)))

/-- `_parse_redis_checkpoint_data`.  `bdecode` models Python
`bytes.decode()` (UTF-8), which the code applies to the stored metadata
bytes before calling `serde.loads`; a failing decode raises
`UnicodeDecodeError`. -/
def _parse_redis_checkpoint_data {V M B : Type} (serde : Serde V M B)
    (bdecode : B → Option Str) (key : Str) (data : Option (CheckpointData B))
    (pending_writes : Option (List (Str × Str × V))) :
    Except Err (Option (CheckpointTuple V M)) :=
  match data with
  | none => .ok none
  | some d => do
    let parsed_key ← _parse_redis_checkpoint_key key
    let config : ConfigTriple :=
      ⟨parsed_key.thread_id, parsed_key.checkpoint_ns, parsed_key.checkpoint_id⟩
    let checkpoint := serde.loads_typed (d.type_, d.checkpoint)
    let mstr ← match bdecode d.metadata with
      | some s => Except.ok s
      | none => Except.error Err.unicodeError
    let metadata := serde.loads (Sum.inr mstr)
    let parent_config : Option ConfigTriple :=
      if d.parent_checkpoint_id = [] then none
      else some ⟨parsed_key.thread_id, parsed_key.checkpoint_ns, d.parent_checkpoint_id⟩
    .ok (some ⟨config, checkpoint, metadata, parent_config, pending_writes⟩)

/-- The key function of `_filter_keys`' comprehension and sort: parse the
key (errors propagate) and pair the key with its `checkpoint_id`, the
decorate step of Python's `sorted(key=...)`. -/
def tagKey (k : Str) : Except Err (Str × Str) := do
  let p ← _parse_redis_checkpoint_key k
  Except.ok (k, p.checkpoint_id)

/-- The `if before:` comprehension of `_filter_keys`: keep only keys whose
parsed `checkpoint_id` is strictly below `before`'s checkpoint id. -/
def beforeFilter (keys : List Str) (before : Option Str) : Except Err (List Str) :=
  match before with
  | some before_id => do
    let tagged ← keys.mapM tagKey
    Except.ok ((tagged.filter (fun kp => strLt kp.2 before_id)).map Prod.fst)
  | none => Except.ok keys

/-- `_filter_keys`: optional strict `before` filter, then a stable sort
descending by the parsed `checkpoint_id`, then `keys[:limit]` guarded by
Python truthiness (`if limit:`), under which a zero limit is no limit. -/
def _filter_keys (keys : List Str) (before : Option Str) (limit : Option Nat) :
    Except Err (List Str) := do
  let keys1 ← beforeFilter keys before
  let tagged ← keys1.mapM tagKey
  let sorted := (pySortBy (fun a b => ! strLt a.2 b.2) tagged).map Prod.fst
  match limit with
  | some n => .ok (if n = 0 then sorted else sorted.take n)
  | none => .ok sorted

/-- `aput`: store one checkpoint hash under its composite key, refresh the
TTL, return the updated config.  Reads `thread_id` and `checkpoint_ns` by
dict subscript (`KeyError` when absent); the parent id comes from
`config["configurable"].get("checkpoint_id")` with the empty-string
sentinel. `new_versions` is accepted and unused, as in the source. -/
def aput {V M B : Type} [DecidableEq B] (serde : Serde V M B)
    (checkpoint_id_of : V → Str) (REDIS_TTL_SECONDS : Nat)
    (st : RedisState B) (config : Configurable) (checkpoint : V) (metadata : M)
    (new_versions : List (Str × Str)) :
    Except Err (RedisState B × ConfigTriple) := do
  let thread_id ← req config.thread_id
  let checkpoint_ns ← req config.checkpoint_ns
  let checkpoint_id := checkpoint_id_of checkpoint
  let parent_checkpoint_id := config.checkpoint_id
  let key := _make_redis_checkpoint_key thread_id checkpoint_ns checkpoint_id
  let tb := serde.dumps_typed checkpoint
  let serialized_metadata := serde.dumps metadata
  let data : CheckpointData B :=
    { checkpoint := tb.2, type_ := tb.1, checkpoint_id := checkpoint_id,
      metadata := serialized_metadata,
      parent_checkpoint_id := parent_checkpoint_id.getD [] }
  let st' : RedisState B :=
    { st with checkpoints := hset st.checkpoints key data,
              ttls := hset st.ttls key REDIS_TTL_SECONDS }
  .ok (st', ⟨thread_id, checkpoint_ns, checkpoint_id⟩)

/-- `aput_writes`: store one pending-write hash per `(channel, value)` pair,
with `idx` from `enumerate`, refreshing the TTL per key; returns the input
config unchanged.  All three address fields are read by dict subscript. -/
def aput_writes {V M B : Type} [DecidableEq B] (serde : Serde V M B)
    (REDIS_TTL_SECONDS : Nat) (st : RedisState B) (config : Configurable)
    (writes : List (Str × V)) (task_id : Str) :
    Except Err (RedisState B × Configurable) := do
  let thread_id ← req config.thread_id
  let checkpoint_ns ← req config.checkpoint_ns
  let checkpoint_id ← req config.checkpoint_id
  let st' := ((_dump_writes serde writes).enum).foldl
    (fun acc idx_data =>
      let key := _make_redis_checkpoint_writes_key thread_id checkpoint_ns
        checkpoint_id task_id (some idx_data.1)
      { acc with writes := hset acc.writes key idx_data.2,
                 ttls := hset acc.ttls key REDIS_TTL_SECONDS })
    st
  .ok (st', config)

def pyMaxByAuxM {α : Type} (f : α → Except Err Str) :
    α → Str → List α → Except Err α
  | best, _, [] => .ok best
  | best, bestKey, x :: xs => do
    let kx ← f x
    if strLt bestKey kx then pyMaxByAuxM f x kx xs
    else pyMaxByAuxM f best bestKey xs

/-- Python `max(iterable, key=f)`: returns the first maximal element; an
empty iterable raises `ValueError`. -/
def pyMaxByM {α : Type} (f : α → Except Err Str) : List α → Except Err α
  | [] => .error .valueError
  | a :: as => do
    let ka ← f a
    pyMaxByAuxM f a ka as

/-- `_aget_checkpoint_key`: with a truthy `checkpoint_id` build the key
directly; otherwise scan `checkpoint:<thread>:<ns>:*` and pick the key
whose parsed `checkpoint_id` is maximal, or `None` when nothing matches. -/
def _aget_checkpoint_key {B : Type} (st : RedisState B)
    (thread_id checkpoint_ns : Str) (checkpoint_id : Option Str) :
    Except Err (Option Str) :=
  match truthy checkpoint_id with
  | some cid => .ok (some (_make_redis_checkpoint_key thread_id checkpoint_ns cid))
  | none => do
    let all_keys := (st.checkpoints.map Prod.fst).filter
      (fun k => globMatch (_make_redis_checkpoint_key thread_id checkpoint_ns ['*']) k)
    if all_keys.isEmpty then .ok none
    else do
      let latest ← pyMaxByM (fun k => do
        let p ← _parse_redis_checkpoint_key k
        Except.ok p.checkpoint_id) all_keys
      .ok (some latest)

/-- One step of the pending-write dict comprehension in `aget_tuple`:
`HGETALL` the write hash and key it by `(task_id, idx)`.  `req` models
`HGETALL` returning `{}` for a vanished key and `_load_writes` then
raising `KeyError` on the missing field. -/
def writeEntryFetch {B : Type} [DecidableEq B] (st : RedisState B)
    (kp : Str × WritesKeyFields) : Except Err ((Str × Str) × WriteData B) := do
  let d ← req (alookup st.writes kp.1)
  .ok ((kp.2.task_id, kp.2.idx), d)

/-- The pending-write assembly inside `aget_tuple`: scan all keys matching
`writes:<thread>:<ns>:<id>:*`, parse each, sort ascending by the raw `idx`
*string* (the comparator the code uses), fetch each hash into a dict keyed
by `(task_id, idx)` (later duplicates overwrite in place, as a Python dict
does), and deserialize. -/
def pendingWritesScan {V M B : Type} [DecidableEq B] (serde : Serde V M B)
    (st : RedisState B) (thread_id checkpoint_ns checkpoint_id2 : Str) :
    Except Err (List (Str × Str × V)) := do
  let writes_key := _make_redis_checkpoint_writes_key thread_id checkpoint_ns
    checkpoint_id2 ['*'] none
  let matching_keys := (st.writes.map Prod.fst).filter
    (fun k => globMatch writes_key k)
  let parsed_keys ← matching_keys.mapM _parse_redis_checkpoint_writes_key
  let sorted_pairs := pySortBy (fun a b => ! strLt b.2.idx a.2.idx)
    (matching_keys.zip parsed_keys)
  let entries ← sorted_pairs.mapM (writeEntryFetch st)
  let dict := entries.foldl (fun acc e => hset acc e.1 e.2) []
  .ok (_load_writes serde dict)

/-- `aget_tuple`: resolve the checkpoint key, fetch its hash, assemble the
pending writes, and build the checkpoint tuple. -/
def aget_tuple {V M B : Type} [DecidableEq B] (serde : Serde V M B)
    (bdecode : B → Option Str) (st : RedisState B) (config : Configurable) :
    Except Err (Option (CheckpointTuple V M)) := do
  let thread_id ← req config.thread_id
  let checkpoint_id := get_checkpoint_id config
  let checkpoint_ns := config.checkpoint_ns.getD []
  let checkpoint_key? ← _aget_checkpoint_key st thread_id checkpoint_ns checkpoint_id
  match checkpoint_key? with
  | none => .ok none
  | some checkpoint_key => do
    let checkpoint_data := alookup st.checkpoints checkpoint_key
    let checkpoint_id2 ← match truthy checkpoint_id with
      | some c => Except.ok c
      | none => do
        let p ← _parse_redis_checkpoint_key checkpoint_key
        Except.ok p.checkpoint_id
    let pending_writes ← pendingWritesScan serde st thread_id checkpoint_ns
      checkpoint_id2
    _parse_redis_checkpoint_data serde bdecode checkpoint_key checkpoint_data
      (some pending_writes)

/-- The fetch loop of `alist`: for each surviving key fetch the hash, skip
it when the backend returns nothing, else parse and yield. -/
def alistFetch {V M B : Type} [DecidableEq B] (serde : Serde V M B)
    (bdecode : B → Option Str) (st : RedisState B) :
    List Str → Except Err (List (CheckpointTuple V M))
  | [] => .ok []
  | k :: ks =>
    match alookup st.checkpoints k with
    | none => alistFetch serde bdecode st ks
    | some d => do
      let tup? ← _parse_redis_checkpoint_data serde bdecode k (some d) none
      let rest ← alistFetch serde bdecode st ks
      .ok (match tup? with
           | some tup => tup :: rest
           | none => rest)

/-- `alist`: scan `checkpoint:<thread>:<ns>:*`, filter/sort/truncate the
keys with `_filter_keys`, then fetch and yield the surviving records.
`before` carries the checkpoint id of the bound config; no pending writes
are attached. -/
def alist {V M B : Type} [DecidableEq B] (serde : Serde V M B)
    (bdecode : B → Option Str) (st : RedisState B) (config : Configurable)
    (before : Option Str) (limit : Option Nat) :
    Except Err (List (CheckpointTuple V M)) := do
  let thread_id ← req config.thread_id
  let checkpoint_ns := config.checkpoint_ns.getD []
  let pattern := _make_redis_checkpoint_key thread_id checkpoint_ns ['*']
  let keys0 := (st.checkpoints.map Prod.fst).filter (fun k => globMatch pattern k)
  let keys ← _filter_keys keys0 before limit
  alistFetch serde bdecode st keys

/-- The four store operations a caller sees (spec §6). -/
structure StoreOps (V M B : Type) where
  put : RedisState B → Configurable → V → M → List (Str × Str) →
    Except Err (RedisState B × ConfigTriple)
  put_writes : RedisState B → Configurable → List (Str × V) → Str →
    Except Err (RedisState B × Configurable)
  get_tuple : RedisState B → Configurable → Except Err (Option (CheckpointTuple V M))
  list : RedisState B → Configurable → Option Str → Option Nat →
    Except Err (List (CheckpointTuple V M))

def AsyncRedisSaver_ops {V M B : Type} [DecidableEq B] (serde : Serde V M B)
    (bdecode : B → Option Str) (checkpoint_id_of : V → Str)
    (REDIS_TTL_SECONDS : Nat) : StoreOps V M B :=
  { put := aput serde checkpoint_id_of REDIS_TTL_SECONDS,
    put_writes := aput_writes serde REDIS_TTL_SECONDS,
    get_tuple := aget_tuple serde bdecode,
    list := alist serde bdecode }

/-- `class AsyncRedisManager(AsyncRedisSaver)` overrides only the
connection factory `from_conn_info`, so every store operation is inherited
from the saver unchanged. -/
def AsyncRedisManager_ops {V M B : Type} [DecidableEq B] (serde : Serde V M B)
    (bdecode : B → Option Str) (checkpoint_id_of : V → Str)
    (REDIS_TTL_SECONDS : Nat) : StoreOps V M B :=
  AsyncRedisSaver_ops serde bdecode checkpoint_id_of REDIS_TTL_SECONDS

/-! ## Concrete instantiations used by witnesses and counterexamples -/

/-- Python `bytes.decode()` restricted to ASCII bytes, on which UTF-8 is
the identity embedding; any byte ≥ 128 makes this particular decode fail,
a faithful fragment of `UnicodeDecodeError` behaviour. -/
def asciiDecode (bs : List Nat) : Option Str :=
  if bs.all (fun b => b < 128) then some (bs.map (fun b => Char.ofNat b)) else none

/-- A serializer over `V = M = Nat` with byte type `List Nat`, satisfying
the round-trip contract on bytes on the values used by the tests. -/
def serdeNat : Serde Nat Nat (List Nat) :=
  { dumps_typed := fun n => (['i'], [n]),
    loads_typed := fun p => p.2.headD 0,
    dumps := fun m => [m],
    loads := fun x =>
      match x with
      | .inl b => b.headD 0
      | .inr s => (s.map Char.toNat).headD 0 }

/-- A serializer over `V = M = Bool` whose `loads` is lawful on bytes
(the serializer contract) but returns `false` on any `str` argument —
legal for the stated contract, which constrains `loads` on bytes only. -/
def serdeBool : Serde Bool Bool (List Nat) :=
  { dumps_typed := fun v => (['b'], if v then [1] else []),
    loads_typed := fun p => ! p.2.isEmpty,
    dumps := fun m => if m then [7] else [],
    loads := fun x =>
      match x with
      | .inl b => ! b.isEmpty
      | .inr _ => false }

deriving instance DecidableEq for Except

def c1_writes : List (Str × Nat) := (List.range 11).map (fun i => ("c".toList, i))

/-- The C1 experiment: store a checkpoint, then eleven pending writes under
one task, then read the tuple back. -/
def c1_run : Except Err (Option (CheckpointTuple Nat Nat)) := do
  let r1 ← aput serdeNat (fun _ => "c1".toList) 60 RedisState.empty
    ⟨some "t".toList, some [], none⟩ 99 5 []
  let r2 ← aput_writes serdeNat 60 r1.1
    ⟨some "t".toList, some [], some "c1".toList⟩ c1_writes "T".toList
  aget_tuple serdeNat asciiDecode r2.1 ⟨some "t".toList, some [], some "c1".toList⟩

def c1_received : List (Str × Str × Nat) :=
  ([0, 1, 10, 2, 3, 4, 5, 6, 7, 8, 9] : List Nat).map
    (fun v => ("T".toList, "c".toList, v))

def c1_submitted : List (Str × Str × Nat) :=
  (List.range 11).map (fun v => ("T".toList, "c".toList, v))

def c6_record (id : Str) : CheckpointData (List Nat) :=
  { checkpoint := [1], type_ := ['b'], checkpoint_id := id,
    metadata := [], parent_checkpoint_id := [] }

/-- Three checkpoints `a1`, `a2`, `a3` stored in scrambled backend order. -/
def c6_state : RedisState (List Nat) :=
  ⟨[(_make_redis_checkpoint_key "t".toList [] "a2".toList, c6_record "a2".toList),
    (_make_redis_checkpoint_key "t".toList [] "a1".toList, c6_record "a1".toList),
    (_make_redis_checkpoint_key "t".toList [] "a3".toList, c6_record "a3".toList)],
   [], []⟩

/-- Four checkpoints `a1`..`a4` stored in scrambled backend order: with
`before = "a4"` the survivors are `a1, a2, a3`, and a limit of 2 must drop
the oldest survivor `a1`. -/
def c6_state4 : RedisState (List Nat) :=
  ⟨[(_make_redis_checkpoint_key "t".toList [] "a2".toList, c6_record "a2".toList),
    (_make_redis_checkpoint_key "t".toList [] "a4".toList, c6_record "a4".toList),
    (_make_redis_checkpoint_key "t".toList [] "a1".toList, c6_record "a1".toList),
    (_make_redis_checkpoint_key "t".toList [] "a3".toList, c6_record "a3".toList)],
   [], []⟩

/-- The two most recent survivors `a3, a2`, descending — what `alist` over
`c6_state4` with `before = "a4"`, `limit = 2` must yield. -/
def c6_expected2 : List (CheckpointTuple Bool Bool) :=
  [⟨⟨"t".toList, [], "a3".toList⟩, true, false, none, none⟩,
   ⟨⟨"t".toList, [], "a2".toList⟩, true, false, none, none⟩]

/-- The key sequence the KEYS scan over `c6_state4` hands `_filter_keys`. -/
def c6_scan_keys : List Str := c6_state4.checkpoints.map Prod.fst

/-- The keys `_filter_keys` keeps with `before = "a4"`, `limit = 2`. -/
def c6_keys_limited : List Str :=
  [_make_redis_checkpoint_key "t".toList [] "a3".toList,
   _make_redis_checkpoint_key "t".toList [] "a2".toList]

/-- All surviving keys with `before = "a4"` and no limit, descending. -/
def c6_keys_all : List Str :=
  [_make_redis_checkpoint_key "t".toList [] "a3".toList,
   _make_redis_checkpoint_key "t".toList [] "a2".toList,
   _make_redis_checkpoint_key "t".toList [] "a1".toList]

/-- The total tagging function used to reason about `max(key=...)`: the
parsed `checkpoint_id` of a key, or `""` when parsing fails. -/
def parsedIdOf (k : Str) : Str :=
  match _parse_redis_checkpoint_key k with
  | .ok r => r.checkpoint_id
  | .error _ => []

/-- A backend holding a single checkpoint that belongs to namespace `n:z`
under thread `t` — and nothing at all under `(t, n)`. -/
def c5_state : RedisState (List Nat) :=
  ⟨[(_make_redis_checkpoint_key "t".toList "n:z".toList "b".toList,
     c6_record "b".toList)], [], []⟩

theorem pySplit_ne_nil (sep : Char) (x : Str) : pySplit sep x ≠ [] := by
  induction x with
  | nil => simp [pySplit]
  | cons c rest ih =>
    simp only [pySplit]
    cases h : pySplit sep rest with
    | nil => exact absurd h ih
    | cons s ss =>
      by_cases hc : c = sep <;> simp [hc]

theorem pySplit_exists_cons (sep : Char) (x : Str) :
    ∃ s ss, pySplit sep x = s :: ss := by
  cases h : pySplit sep x with
  | nil => exact absurd h (pySplit_ne_nil sep x)
  | cons s ss => exact ⟨s, ss, rfl⟩

theorem pySplit_cons (sep c : Char) (rest : Str) (s : Str) (ss : List Str)
    (h : pySplit sep rest = s :: ss) :
    pySplit sep (c :: rest) = if c = sep then [] :: s :: ss else (c :: s) :: ss := by
  simp only [pySplit, h]

theorem pySplit_append (sep : Char) (a b : Str) :
    pySplit sep (a ++ sep :: b) = pySplit sep a ++ pySplit sep b := by
  induction a with
  | nil =>
    obtain ⟨s, ss, h⟩ := pySplit_exists_cons sep b
    rw [List.nil_append, pySplit_cons sep sep b s ss h, if_pos rfl]
    simp [pySplit, h]
  | cons c cs ih =>
    obtain ⟨s, ss, h⟩ := pySplit_exists_cons sep cs
    have h2 : pySplit sep (cs ++ sep :: b) = s :: (ss ++ pySplit sep b) := by
      rw [ih, h]; rfl
    rw [List.cons_append, pySplit_cons sep c _ _ _ h2, pySplit_cons sep c cs s ss h]
    by_cases hc : c = sep <;> simp [hc]

theorem pySplit_no_sep (sep : Char) (x : Str) (h : sep ∉ x) :
    pySplit sep x = [x] := by
  induction x with
  | nil => rfl
  | cons c cs ih =>
    simp only [List.mem_cons, not_or] at h
    simp only [pySplit, ih h.2]
    have : ¬ c = sep := fun hc => h.1 hc.symm
    simp [this]

theorem pyJoin_cons (sep : Char) (s : Str) (rest : List Str) (h : rest ≠ []) :
    pyJoin sep (s :: rest) = s ++ sep :: pyJoin sep rest := by
  cases rest with
  | nil => exact absurd rfl h
  | cons s' rest' => rfl

theorem pyJoin_pySplit (sep : Char) (x : Str) :
    pyJoin sep (pySplit sep x) = x := by
  induction x with
  | nil => rfl
  | cons c cs ih =>
    obtain ⟨s, ss, h⟩ := pySplit_exists_cons sep cs
    rw [pySplit_cons sep c cs s ss h]
    rw [h] at ih
    by_cases hc : c = sep
    · rw [if_pos hc, pyJoin_cons sep [] (s :: ss) (by simp), ih]
      simp [hc]
    · rw [if_neg hc]
      cases ss with
      | nil => simpa [pyJoin] using ih
      | cons t ts =>
        rw [pyJoin_cons sep (c :: s) (t :: ts) (by simp)]
        rw [pyJoin_cons sep s (t :: ts) (by simp)] at ih
        simpa using ih

theorem pyJoin_append_single (sep : Char) (mid : List Str) (x : Str) (h : mid ≠ []) :
    pyJoin sep (mid ++ [x]) = pyJoin sep mid ++ sep :: x := by
  induction mid with
  | nil => exact absurd rfl h
  | cons a rest ih =>
    cases rest with
    | nil => rfl
    | cons b rest' =>
      rw [List.cons_append, pyJoin_cons sep a ((b :: rest') ++ [x]) (by simp),
        ih (by simp), pyJoin_cons sep a (b :: rest') (by simp)]
      simp

theorem strLt_asymm : ∀ a b : Str, strLt a b = true → strLt b a = false := by
  intro a
  induction a with
  | nil =>
    intro b hab
    cases b with
    | nil => exact absurd hab (by simp [strLt])
    | cons y ys => rfl
  | cons x xs ih =>
    intro b hab
    cases b with
    | nil => exact absurd hab (by simp [strLt])
    | cons y ys =>
      simp only [strLt] at hab ⊢
      rcases Nat.lt_trichotomy x.toNat y.toNat with h | h | h
      · rw [if_neg (by omega), if_neg (by omega)]
      · rw [if_neg (by omega), if_pos h] at hab
        rw [if_neg (by omega), if_pos (by omega)]
        exact ih ys hab
      · rw [if_neg (by omega), if_neg (by omega)] at hab
        exact absurd hab (by simp)

theorem strLt_false_trans :
    ∀ a b c : Str, strLt b a = false → strLt c b = false → strLt c a = false := by
  intro a
  induction a with
  | nil =>
    intro b c _ _
    cases c with
    | nil => rfl
    | cons z zs => rfl
  | cons x xs ih =>
    intro b c hba hcb
    cases c with
    | nil =>
      cases b with
      | nil => exact absurd hba (by simp [strLt])
      | cons y ys => exact absurd hcb (by simp [strLt])
    | cons z zs =>
      cases b with
      | nil => exact absurd hba (by simp [strLt])
      | cons y ys =>
        simp only [strLt] at hba hcb ⊢
        rcases Nat.lt_trichotomy y.toNat x.toNat with h1 | h1 | h1
        · rw [if_pos h1] at hba
          exact absurd hba (by simp)
        · rw [if_neg (by omega), if_pos h1] at hba
          rcases Nat.lt_trichotomy z.toNat y.toNat with h2 | h2 | h2
          · rw [if_pos h2] at hcb
            exact absurd hcb (by simp)
          · rw [if_neg (by omega), if_pos h2] at hcb
            rw [if_neg (by omega), if_pos (by omega)]
            exact ih ys zs hba hcb
          · rw [if_neg (by omega), if_neg (by omega)]
        · rcases Nat.lt_trichotomy z.toNat y.toNat with h2 | h2 | h2
          · rw [if_pos h2] at hcb
            exact absurd hcb (by simp)
          · rw [if_neg (by omega), if_neg (by omega)]
          · rw [if_neg (by omega), if_neg (by omega)]

theorem mem_pyInsert {α : Type} (le : α → α → Bool) (a x : α) (l : List α) :
    x ∈ pyInsert le a l ↔ x = a ∨ x ∈ l := by
  induction l with
  | nil => simp [pyInsert]
  | cons b bs ih =>
    simp only [pyInsert]
    by_cases h : le a b = true
    · rw [if_pos h]
      simp only [List.mem_cons]
    · rw [if_neg h]
      simp only [List.mem_cons, ih]
      tauto

theorem mem_pySortBy {α : Type} (le : α → α → Bool) (x : α) (l : List α) :
    x ∈ pySortBy le l ↔ x ∈ l := by
  induction l with
  | nil => simp [pySortBy]
  | cons a as ih => simp [pySortBy, mem_pyInsert, ih]

theorem length_pyInsert {α : Type} (le : α → α → Bool) (a : α) (l : List α) :
    (pyInsert le a l).length = l.length + 1 := by
  induction l with
  | nil => rfl
  | cons b bs ih =>
    simp only [pyInsert]
    by_cases h : le a b = true
    · rw [if_pos h]; rfl
    · rw [if_neg h]
      simp [ih]

theorem length_pySortBy {α : Type} (le : α → α → Bool) (l : List α) :
    (pySortBy le l).length = l.length := by
  induction l with
  | nil => rfl
  | cons a as ih => simp [pySortBy, length_pyInsert, ih]

theorem pairwise_pyInsert {α : Type} (le : α → α → Bool)
    (htrans : ∀ x y z, le x y = true → le y z = true → le x z = true)
    (htot : ∀ x y, le x y = false → le y x = true)
    (a : α) (l : List α) (h : l.Pairwise (fun x y => le x y = true)) :
    (pyInsert le a l).Pairwise (fun x y => le x y = true) := by
  induction l with
  | nil => simp [pyInsert]
  | cons b bs ih =>
    simp only [pyInsert]
    by_cases hab : le a b = true
    · rw [if_pos hab]
      refine List.Pairwise.cons ?_ h
      intro y hy
      rcases List.mem_cons.mp hy with rfl | hy
      · exact hab
      · exact htrans a b y hab ((List.pairwise_cons.mp h).1 y hy)
    · rw [if_neg hab]
      refine List.Pairwise.cons ?_ (ih (List.pairwise_cons.mp h).2)
      intro y hy
      rcases (mem_pyInsert le a y bs).mp hy with h' | hy
      · rw [h']
        exact htot a b (by simpa using hab)
      · exact (List.pairwise_cons.mp h).1 y hy

theorem pairwise_pySortBy {α : Type} (le : α → α → Bool)
    (htrans : ∀ x y z, le x y = true → le y z = true → le x z = true)
    (htot : ∀ x y, le x y = false → le y x = true)
    (l : List α) :
    (pySortBy le l).Pairwise (fun x y => le x y = true) := by
  induction l with
  | nil => simp [pySortBy]
  | cons a as ih => exact pairwise_pyInsert le htrans htot a (pySortBy le as) ih

theorem nil_mem_tails {α : Type} (s : List α) : [] ∈ s.tails := by
  induction s with
  | nil => simp
  | cons c cs ih => simp [List.tails_cons, ih]

theorem mem_tails_append {α : Type} (y x : List α) : y ∈ (x ++ y).tails := by
  induction x with
  | nil => cases y <;> simp [List.tails_cons]
  | cons c cs ih => simp [List.tails_cons, ih]

theorem globMatch_unfold_cons (p : Char) (ps : Str) (s : Str) :
    globMatch (p :: ps) s =
      if p = '*' then s.tails.any (fun t => globMatch ps t)
      else match s with
           | [] => false
           | c :: ks => if p = '?' then globMatch ps ks
                        else if p = c then globMatch ps ks else false := rfl

theorem globMatch_star_cons (ps s : Str) :
    globMatch ('*' :: ps) s = s.tails.any (fun t => globMatch ps t) := by
  rw [globMatch_unfold_cons, if_pos rfl]

theorem globMatch_cons_cons (p : Char) (ps : Str) (c : Char) (ks : Str)
    (hstar : p ≠ '*') :
    globMatch (p :: ps) (c :: ks) =
      if p = '?' then globMatch ps ks
      else if p = c then globMatch ps ks else false := by
  rw [globMatch_unfold_cons, if_neg hstar]

theorem globMatch_star_all (y : Str) : globMatch ['*'] y = true := by
  rw [globMatch_star_cons, List.any_eq_true]
  exact ⟨[], nil_mem_tails y, by simp [globMatch]⟩

theorem globMatch_star_suffix :
    ∀ (x y : Str), globMatch (x ++ ['*']) (x ++ y) = true := by
  intro x
  induction x with
  | nil =>
    intro y
    simpa using globMatch_star_all y
  | cons c cs ih =>
    intro y
    by_cases hstar : c = '*'
    · subst hstar
      rw [List.cons_append, List.cons_append, globMatch_star_cons, List.any_eq_true]
      exact ⟨cs ++ y, mem_tails_append (cs ++ y) ['*'], ih y⟩
    · by_cases hq : c = '?'
      · subst hq
        rw [List.cons_append, List.cons_append,
          globMatch_cons_cons _ _ _ _ (by decide), if_pos rfl]
        exact ih y
      · rw [List.cons_append, List.cons_append,
          globMatch_cons_cons _ _ _ _ hstar, if_neg hq, if_pos rfl]
        exact ih y

theorem natToStrF_irrel :
    ∀ f1 f2 n : Nat, n < f1 → n < f2 → natToStrF f1 n = natToStrF f2 n := by
  intro f1
  induction f1 with
  | zero => intro f2 n h1 _; omega
  | succ g ih =>
    intro f2 n h1 h2
    cases f2 with
    | zero => omega
    | succ h =>
      simp only [natToStrF]
      by_cases hn : n < 10
      · rw [if_pos hn, if_pos hn]
      · rw [if_neg hn, if_neg hn]
        have hlt : n / 10 < n := Nat.div_lt_self (by omega) (by omega)
        rw [ih h (n / 10) (by omega) (by omega)]

theorem natToStr_unfold (n : Nat) :
    natToStr n = if n < 10 then [digitChar n]
                 else natToStr (n / 10) ++ [digitChar (n % 10)] := by
  show natToStrF (n + 1) n = _
  simp only [natToStrF]
  by_cases hn : n < 10
  · rw [if_pos hn, if_pos hn]
  · rw [if_neg hn, if_neg hn]
    have hlt : n / 10 < n := Nat.div_lt_self (by omega) (by omega)
    rw [natToStrF_irrel n (n / 10 + 1) (n / 10) (by omega) (by omega)]
    rfl

theorem digitVal_digitChar : ∀ d, d < 10 → digitVal (digitChar d) = d := by decide

theorem foldl_digit_append (s : Str) (c : Char) (a : Nat) :
    (s ++ [c]).foldl (fun a c => 10 * a + digitVal c) a =
      10 * s.foldl (fun a c => 10 * a + digitVal c) a + digitVal c := by
  simp [List.foldl_append]

theorem strVal_natToStr (n : Nat) : strVal (natToStr n) = n := by
  induction n using Nat.strong_induction_on with
  | _ n ih =>
    rw [natToStr_unfold]
    by_cases h : n < 10
    · rw [if_pos h]
      simp [strVal, digitVal_digitChar n h]
    · rw [if_neg h]
      have hdiv : n / 10 < n := Nat.div_lt_self (by omega) (by omega)
      have := ih (n / 10) hdiv
      simp only [strVal] at this ⊢
      rw [foldl_digit_append, this, digitVal_digitChar (n % 10) (Nat.mod_lt n (by omega))]
      omega

theorem natToStr_injective : Function.Injective natToStr := by
  intro a b h
  have ha := strVal_natToStr a
  have hb := strVal_natToStr b
  rw [h] at ha
  omega

theorem digitChar_ne_colon : ∀ d, d < 10 → digitChar d ≠ ':' := by decide

theorem natToStr_no_colon (n : Nat) : ':' ∉ natToStr n := by
  induction n using Nat.strong_induction_on with
  | _ n ih =>
    rw [natToStr_unfold]
    by_cases h : n < 10
    · rw [if_pos h]
      simp only [List.mem_singleton]
      exact fun hc => digitChar_ne_colon n h hc.symm
    · rw [if_neg h]
      have hdiv : n / 10 < n := Nat.div_lt_self (by omega) (by omega)
      simp only [List.mem_append, List.mem_singleton, not_or]
      refine ⟨ih (n / 10) hdiv, ?_⟩
      exact fun hc => digitChar_ne_colon (n % 10) (Nat.mod_lt n (by omega)) hc.symm

theorem alookup_hset_self {κ α : Type} [DecidableEq κ]
    (l : List (κ × α)) (k : κ) (v : α) : alookup (hset l k v) k = some v := by
  rw [hset]
  by_cases h : l.any (fun p => p.1 = k) = true
  · rw [if_pos h]
    induction l with
    | nil => simp at h
    | cons p rest ih =>
      simp only [List.any_cons, Bool.or_eq_true] at h
      by_cases hp : p.1 = k
      · simp [alookup, hp]
      · have hr : rest.any (fun p => p.1 = k) = true := by
          rcases h with h | h
          · exact absurd (by simpa using h) hp
          · exact h
        simp only [List.map_cons, if_neg hp, alookup, hp, if_false]
        exact ih hr
  · rw [if_neg h]
    induction l with
    | nil => simp [alookup]
    | cons p rest ih =>
      simp only [List.any_cons, Bool.or_eq_true, not_or] at h
      have hp : ¬ p.1 = k := fun hc => h.1 (by simpa using hc)
      simp only [List.cons_append, alookup, if_neg hp]
      exact ih h.2

theorem alookup_mem_keys {κ α : Type} [DecidableEq κ]
    (l : List (κ × α)) (k : κ) (h : k ∈ l.map Prod.fst) :
    ∃ v, alookup l k = some v := by
  induction l with
  | nil => simp at h
  | cons p rest ih =>
    by_cases hp : p.1 = k
    · exact ⟨p.2, by simp [alookup, hp]⟩
    · simp only [List.map_cons, List.mem_cons] at h
      rcases h with h | h
      · exact absurd h.symm hp
      · obtain ⟨v, hv⟩ := ih h
        exact ⟨v, by simp [alookup, hp, hv]⟩

theorem colon_not_mem_checkpoint_kw : ':' ∉ "checkpoint".toList := by decide

theorem colon_not_mem_writes_kw : ':' ∉ "writes".toList := by decide

theorem pySplit_make_checkpoint_gen (t ns id : Str) :
    pySplit ':' (_make_redis_checkpoint_key t ns id) =
      "checkpoint".toList :: (pySplit ':' t ++ (pySplit ':' ns ++ pySplit ':' id)) := by
  have h1 : _make_redis_checkpoint_key t ns id =
      "checkpoint".toList ++ ':' :: (t ++ ':' :: (ns ++ ':' :: id)) := by
    rw [_make_redis_checkpoint_key, REDIS_KEY_SEPARATOR]
    rw [pyJoin_cons ':' _ _ (by simp), pyJoin_cons ':' _ _ (by simp),
      pyJoin_cons ':' _ _ (by simp)]
    rfl
  rw [h1, pySplit_append, pySplit_append, pySplit_append,
    pySplit_no_sep ':' _ colon_not_mem_checkpoint_kw]
  simp

theorem pySplit_make_writes_gen (t ns id task ix : Str) :
    pySplit ':' (pyJoin REDIS_KEY_SEPARATOR ["writes".toList, t, ns, id, task, ix]) =
      "writes".toList ::
        (pySplit ':' t ++ (pySplit ':' ns ++ (pySplit ':' id ++
          (pySplit ':' task ++ pySplit ':' ix)))) := by
  have h1 : pyJoin REDIS_KEY_SEPARATOR ["writes".toList, t, ns, id, task, ix] =
      "writes".toList ++ ':' :: (t ++ ':' :: (ns ++ ':' :: (id ++ ':' :: (task ++ ':' :: ix)))) := by
    rw [REDIS_KEY_SEPARATOR]
    rw [pyJoin_cons ':' _ _ (by simp), pyJoin_cons ':' _ _ (by simp),
      pyJoin_cons ':' _ _ (by simp), pyJoin_cons ':' _ _ (by simp),
      pyJoin_cons ':' _ _ (by simp)]
    rfl
  rw [h1, pySplit_append, pySplit_append, pySplit_append, pySplit_append,
    pySplit_append, pySplit_no_sep ':' _ colon_not_mem_writes_kw]
  simp

theorem getD_append_length_add (S rest : List Str) (k : Nat) (d : Str) :
    (S ++ rest).getD (S.length + k) d = rest.getD k d := by
  induction S with
  | nil => simp
  | cons a as ih =>
    have he : (a :: as).length + k = (as.length + k) + 1 := by
      simp [Nat.succ_add]
    rw [List.cons_append, he, List.getD_cons_succ]
    exact ih

theorem getD_append_length (S rest : List Str) (d : Str) :
    (S ++ rest).getD S.length d = rest.getD 0 d := by
  simpa using getD_append_length_add S rest 0 d

theorem parse_make_checkpoint (t ns id : Str) (ht : ':' ∉ t) (hid : ':' ∉ id) :
    _parse_redis_checkpoint_key (_make_redis_checkpoint_key t ns id) =
      .ok ⟨t, ns, id⟩ := by
  have hsplit : pySplit ':' (_make_redis_checkpoint_key t ns id) =
      "checkpoint".toList :: t :: (pySplit ':' ns ++ [id]) := by
    rw [pySplit_make_checkpoint_gen, pySplit_no_sep ':' t ht, pySplit_no_sep ':' id hid]
    rfl
  have hconcat : "checkpoint".toList :: t :: (pySplit ':' ns ++ [id]) =
      ("checkpoint".toList :: t :: pySplit ':' ns) ++ [id] := by simp
  have hlast : ("checkpoint".toList :: t :: (pySplit ':' ns ++ [id])).getLastD [] = id := by
    rw [hconcat, List.getLastD_concat]
  simp only [_parse_redis_checkpoint_key, REDIS_KEY_SEPARATOR, hsplit]
  rw [if_neg (by simp)]
  rw [if_neg (by simp only [List.length_cons]; omega)]
  refine congrArg Except.ok ?_
  simp only [List.getD_cons_succ, List.getD_cons_zero, List.drop_succ_cons,
    List.drop_zero, List.dropLast_concat, pyJoin_pySplit, hlast]

theorem parse_make_writes (t ns id task : Str) (i : Nat)
    (ht : ':' ∉ t) (hid : ':' ∉ id) (htask : ':' ∉ task) :
    _parse_redis_checkpoint_writes_key
        (_make_redis_checkpoint_writes_key t ns id task (some i)) =
      .ok ⟨t, ns, id, task, natToStr i⟩ := by
  have hsplit : pySplit ':' (_make_redis_checkpoint_writes_key t ns id task (some i)) =
      "writes".toList :: t :: (pySplit ':' ns ++ [id, task, natToStr i]) := by
    show pySplit ':' (pyJoin REDIS_KEY_SEPARATOR
      ["writes".toList, t, ns, id, task, natToStr i]) = _
    rw [pySplit_make_writes_gen, pySplit_no_sep ':' t ht, pySplit_no_sep ':' id hid,
      pySplit_no_sep ':' task htask,
      pySplit_no_sep ':' (natToStr i) (natToStr_no_colon i)]
    simp
  have hlen : ("writes".toList :: t :: (pySplit ':' ns ++ [id, task, natToStr i])).length =
      (pySplit ':' ns).length + 5 := by
    simp [List.length_cons, List.length_append]
  have h3 : ("writes".toList :: t :: (pySplit ':' ns ++ [id, task, natToStr i])).length - 3 =
      (pySplit ':' ns).length + 2 := by omega
  have h2 : ("writes".toList :: t :: (pySplit ':' ns ++ [id, task, natToStr i])).length - 2 =
      (pySplit ':' ns).length + 3 := by omega
  have hget3 : ("writes".toList :: t :: (pySplit ':' ns ++ [id, task, natToStr i])).getD
      ((pySplit ':' ns).length + 2) [] = id := by
    show ("writes".toList :: t :: (pySplit ':' ns ++ [id, task, natToStr i])).getD
      (((pySplit ':' ns).length + 1) + 1) [] = id
    rw [List.getD_cons_succ, List.getD_cons_succ, getD_append_length]
    rfl
  have hget2 : ("writes".toList :: t :: (pySplit ':' ns ++ [id, task, natToStr i])).getD
      ((pySplit ':' ns).length + 3) [] = task := by
    show ("writes".toList :: t :: (pySplit ':' ns ++ [id, task, natToStr i])).getD
      ((((pySplit ':' ns).length + 1) + 1) + 1) [] = task
    rw [List.getD_cons_succ, List.getD_cons_succ, getD_append_length_add]
    rfl
  have hconcat : "writes".toList :: t :: (pySplit ':' ns ++ [id, task, natToStr i]) =
      (("writes".toList :: t :: (pySplit ':' ns ++ [id, task])) ++ [natToStr i]) := by
    simp
  have hlast : ("writes".toList :: t ::
      (pySplit ':' ns ++ [id, task, natToStr i])).getLastD [] = natToStr i := by
    rw [hconcat, List.getLastD_concat]
  have hns : (("writes".toList :: t :: (pySplit ':' ns ++ [id, task, natToStr i])).drop
      2).dropLast.dropLast.dropLast = pySplit ':' ns := by
    rw [List.drop_succ_cons, List.drop_succ_cons, List.drop_zero]
    rw [show pySplit ':' ns ++ [id, task, natToStr i] =
      ((pySplit ':' ns ++ [id]) ++ [task]) ++ [natToStr i] by simp]
    rw [List.dropLast_concat, List.dropLast_concat, List.dropLast_concat]
  simp only [_parse_redis_checkpoint_writes_key, REDIS_KEY_SEPARATOR, hsplit]
  rw [if_neg (by simp)]
  rw [if_neg (by simp only [List.length_cons, List.length_append]; omega)]
  rw [h3, h2]
  refine congrArg Except.ok ?_
  simp only [List.getD_cons_succ, List.getD_cons_zero, hget3, hget2, hns,
    pyJoin_pySplit, hlast]

theorem make_checkpoint_key_decomp (t ns x : Str) :
    _make_redis_checkpoint_key t ns x =
      ("checkpoint".toList ++ ':' :: (t ++ ':' :: (ns ++ [':']))) ++ x := by
  rw [_make_redis_checkpoint_key, REDIS_KEY_SEPARATOR, pyJoin_cons ':' _ _ (by simp),
    pyJoin_cons ':' _ _ (by simp), pyJoin_cons ':' _ _ (by simp)]
  simp [pyJoin]

theorem globMatch_make_pattern (t ns id : Str) :
    globMatch (_make_redis_checkpoint_key t ns ['*'])
      (_make_redis_checkpoint_key t ns id) = true := by
  rw [make_checkpoint_key_decomp t ns ['*'], make_checkpoint_key_decomp t ns id]
  exact globMatch_star_suffix _ id

theorem make_checkpoint_key_inj_id (t ns a b : Str)
    (h : _make_redis_checkpoint_key t ns a = _make_redis_checkpoint_key t ns b) :
    a = b := by
  rw [make_checkpoint_key_decomp, make_checkpoint_key_decomp] at h
  exact List.append_cancel_left h

theorem parse_make_checkpoint_id (t ns id : Str) (hid : ':' ∉ id) :
    ∃ r : CheckpointKeyFields,
      _parse_redis_checkpoint_key (_make_redis_checkpoint_key t ns id) = .ok r ∧
      r.checkpoint_id = id := by
  have hsplit : pySplit ':' (_make_redis_checkpoint_key t ns id) =
      "checkpoint".toList :: (pySplit ':' t ++ (pySplit ':' ns ++ [id])) := by
    rw [pySplit_make_checkpoint_gen, pySplit_no_sep ':' id hid]
  have hlast : ("checkpoint".toList :: (pySplit ':' t ++ (pySplit ':' ns ++ [id]))).getLastD
      [] = id := by
    rw [show "checkpoint".toList :: (pySplit ':' t ++ (pySplit ':' ns ++ [id])) =
      ("checkpoint".toList :: (pySplit ':' t ++ pySplit ':' ns)) ++ [id] by simp,
      List.getLastD_concat]
  have htl : 0 < (pySplit ':' t).length :=
    List.length_pos.mpr (pySplit_ne_nil ':' t)
  simp only [_parse_redis_checkpoint_key, REDIS_KEY_SEPARATOR, hsplit]
  rw [if_neg (by simp)]
  rw [if_neg (by simp only [List.length_cons, List.length_append]; omega)]
  exact ⟨_, rfl, hlast⟩

/-! ## Claim theorems -/

/-- C4: for every key string whose first separator-delimited segment is not
the expected kind token, parsing as a checkpoint key (resp. writes key)
fails with a `ValueError` format error and never silently recovers. -/
theorem parse_wrong_kind_raises (k k' : Str)
    (hc : (pySplit ':' k).headD [] ≠ "checkpoint".toList)
    (hw : (pySplit ':' k').headD [] ≠ "writes".toList) :
    _parse_redis_checkpoint_key k = .error .valueError ∧
    _parse_redis_checkpoint_writes_key k' = .error .valueError := by
  constructor
  · simp only [_parse_redis_checkpoint_key, REDIS_KEY_SEPARATOR]
    rw [if_pos hc]
  · simp only [_parse_redis_checkpoint_writes_key, REDIS_KEY_SEPARATOR]
    rw [if_pos hw]

theorem parse_wrong_kind_raises_witness :
    ((pySplit ':' "writes:a:b:c".toList).headD [] ≠ "checkpoint".toList ∧
     (pySplit ':' "checkpoint:a:b".toList).headD [] ≠ "writes".toList) ∧
    _parse_redis_checkpoint_key "writes:a:b:c".toList = .error .valueError ∧
    _parse_redis_checkpoint_writes_key "checkpoint:a:b".toList =
      .error .valueError :=
  ⟨⟨by decide, by decide⟩,
   (parse_wrong_kind_raises "writes:a:b:c".toList "checkpoint:a:b".toList
      (by decide) (by decide)).1,
   (parse_wrong_kind_raises "writes:a:b:c".toList "checkpoint:a:b".toList
      (by decide) (by decide)).2⟩

/-- C3: encoding an address whose `thread_id` and `checkpoint_id` (and, for
writes keys, `task_id`) are separator-free and whose namespace is arbitrary
(colons allowed) and then decoding recovers the original fields exactly;
the writes `idx` comes back as its decimal string, which determines the
number since the rendering is injective. -/
theorem key_codec_roundtrip (t ns id task : Str) (i : Nat)
    (ht : ':' ∉ t) (hid : ':' ∉ id) (htask : ':' ∉ task) :
    _parse_redis_checkpoint_key (_make_redis_checkpoint_key t ns id) =
      .ok ⟨t, ns, id⟩ ∧
    _parse_redis_checkpoint_writes_key
        (_make_redis_checkpoint_writes_key t ns id task (some i)) =
      .ok ⟨t, ns, id, task, natToStr i⟩ ∧
    Function.Injective natToStr :=
  ⟨parse_make_checkpoint t ns id ht hid,
   parse_make_writes t ns id task i ht hid htask,
   natToStr_injective⟩

theorem key_codec_roundtrip_witness :
    (':' ∉ "t1".toList ∧ ':' ∉ "c1".toList ∧ ':' ∉ "T1".toList) ∧
    _parse_redis_checkpoint_key (_make_redis_checkpoint_key "t1".toList
        "ns:with:colons".toList "c1".toList) =
      .ok ⟨"t1".toList, "ns:with:colons".toList, "c1".toList⟩ ∧
    _parse_redis_checkpoint_writes_key (_make_redis_checkpoint_writes_key
        "t1".toList "ns:with:colons".toList "c1".toList "T1".toList (some 12)) =
      .ok ⟨"t1".toList, "ns:with:colons".toList, "c1".toList, "T1".toList,
        natToStr 12⟩ :=
  ⟨⟨by decide, by decide, by decide⟩,
   (key_codec_roundtrip "t1".toList "ns:with:colons".toList "c1".toList
      "T1".toList 12 (by decide) (by decide) (by decide)).1,
   (key_codec_roundtrip "t1".toList "ns:with:colons".toList "c1".toList
      "T1".toList 12 (by decide) (by decide) (by decide)).2.1⟩

/-- C7: the store yielded by the manager entry point behaves identically to
the saver: `put`, `put_writes`, `get_tuple` and `list` produce equal
results (hence equal backend effects) from equal starting states, for every
input — `AsyncRedisManager` inherits every operation unchanged. -/
theorem manager_saver_ops_identical {V M B : Type} [DecidableEq B]
    (serde : Serde V M B) (bdecode : B → Option Str)
    (checkpoint_id_of : V → Str) (ttl : Nat) :
    (∀ st c v m nv,
      (AsyncRedisManager_ops serde bdecode checkpoint_id_of ttl).put st c v m nv =
      (AsyncRedisSaver_ops serde bdecode checkpoint_id_of ttl).put st c v m nv) ∧
    (∀ st c ws task,
      (AsyncRedisManager_ops serde bdecode checkpoint_id_of ttl).put_writes st c ws task =
      (AsyncRedisSaver_ops serde bdecode checkpoint_id_of ttl).put_writes st c ws task) ∧
    (∀ st c,
      (AsyncRedisManager_ops serde bdecode checkpoint_id_of ttl).get_tuple st c =
      (AsyncRedisSaver_ops serde bdecode checkpoint_id_of ttl).get_tuple st c) ∧
    (∀ st c before limit,
      (AsyncRedisManager_ops serde bdecode checkpoint_id_of ttl).list st c before limit =
      (AsyncRedisSaver_ops serde bdecode checkpoint_id_of ttl).list st c before limit) :=
  ⟨fun _ _ _ _ _ => rfl, fun _ _ _ _ => rfl, fun _ _ => rfl, fun _ _ _ _ => rfl⟩

/-- C10: `aput_writes` with an empty writes sequence performs no backend
writes at all — no key is written and no TTL is applied, over a config
carrying the three required address fields — and returns the input config
unchanged, leaving the state exactly as it was. -/
theorem put_writes_empty_is_noop {V M B : Type} [DecidableEq B]
    (serde : Serde V M B) (ttl : Nat) (st : RedisState B)
    (t ns cid task : Str) :
    aput_writes serde ttl st ⟨some t, some ns, some cid⟩ [] task =
      .ok (st, ⟨some t, some ns, some cid⟩) := rfl

/-- C9: a config whose configurable dict lacks `checkpoint_ns` makes
`aget_tuple` and `alist` fall back to the empty namespace and proceed
exactly as if the empty string had been supplied, while `aput` and
`aput_writes`, which subscript the missing field, raise `KeyError`. -/
theorem missing_ns_reads_default_writes_raise {V M B : Type} [DecidableEq B]
    (serde : Serde V M B) (bdecode : B → Option Str)
    (checkpoint_id_of : V → Str) (ttl : Nat) (st : RedisState B) (t : Str)
    (cid : Option Str) (v : V) (m : M) (nv : List (Str × Str))
    (ws : List (Str × V)) (task : Str) (before : Option Str)
    (limit : Option Nat) :
    aget_tuple serde bdecode st ⟨some t, none, cid⟩ =
      aget_tuple serde bdecode st ⟨some t, some [], cid⟩ ∧
    alist serde bdecode st ⟨some t, none, cid⟩ before limit =
      alist serde bdecode st ⟨some t, some [], cid⟩ before limit ∧
    aput serde checkpoint_id_of ttl st ⟨some t, none, cid⟩ v m nv =
      .error .keyError ∧
    aput_writes serde ttl st ⟨some t, none, cid⟩ ws task = .error .keyError :=
  ⟨rfl, rfl, rfl, rfl⟩

/-- C8: a zero `limit` is falsy in Python (`if limit:`), so `List` treats
`limit = 0` exactly like no limit at all — `_filter_keys` and `alist`
return every matching tuple rather than an empty sequence. -/
theorem list_limit_zero_yields_all {V M B : Type} [DecidableEq B]
    (serde : Serde V M B) (bdecode : B → Option Str) (st : RedisState B)
    (config : Configurable) (before : Option Str) (keys : List Str) :
    _filter_keys keys before (some 0) = _filter_keys keys before none ∧
    alist serde bdecode st config before (some 0) =
      alist (V := V) (M := M) serde bdecode st config before none := by
  have hf : ∀ ks b, _filter_keys ks b (some 0) = _filter_keys ks b none := by
    intro ks b
    simp [_filter_keys]
  refine ⟨hf keys before, ?_⟩
  simp only [alist, hf]

/-- C1: the code sorts pending-write keys by the raw decimal *string* of
`idx` (the parse never converts it back to an integer), so eleven writes
submitted as idx 0..10 under one task come back in the order
0, 1, 10, 2, ..., 9 — not in ascending numeric idx order as the claim and
the spec's replay-order invariant require.  This evaluates the embedded
code at the failing input. -/
theorem pending_writes_sorted_by_idx_string :
    c1_run = .ok (some ⟨⟨"t".toList, [], "c1".toList⟩, 99, 5, none,
      some c1_received⟩) ∧
    c1_received ≠ c1_submitted := by decide

/-- C2 counterexample: a serializer that satisfies the stated contract —
`loads` inverts `dumps` on bytes, `loads_typed` inverts `dumps_typed`,
shown exhaustively over `Bool` — for which `Put` followed by `GetTuple` at
the same address returns metadata `false` although `true` was stored: the
code calls `.decode()` on the stored metadata bytes and hands `loads` a
`str`, which the bytes-only contract does not constrain. -/
theorem put_get_metadata_diverges :
    serdeBool.loads (.inl (serdeBool.dumps true)) = true ∧
    serdeBool.loads (.inl (serdeBool.dumps false)) = false ∧
    serdeBool.loads_typed (serdeBool.dumps_typed true) = true ∧
    serdeBool.loads_typed (serdeBool.dumps_typed false) = false ∧
    ((do
        let r1 ← aput serdeBool (fun _ => "c1".toList) 60 RedisState.empty
          ⟨some "t".toList, some [], none⟩ true true []
        aget_tuple serdeBool asciiDecode r1.1
          ⟨some "t".toList, some [], some "c1".toList⟩
        : Except Err (Option (CheckpointTuple Bool Bool))) =
      .ok (some ⟨⟨"t".toList, [], "c1".toList⟩, true, false, none, some []⟩)) ∧
    (false : Bool) ≠ true := by decide

theorem except_bind_ok {ε α β : Type} (a : α) (f : α → Except ε β) :
    (Except.ok a >>= f) = f a := rfl

theorem except_bind_err {ε α β : Type} (e : ε) (f : α → Except ε β) :
    ((Except.error e : Except ε α) >>= f) = Except.error e := rfl

theorem mapM_ok {α β : Type} (f : α → Except Err β) :
    ∀ (l : List α), (∀ a ∈ l, ∃ b, f a = .ok b) →
      ∃ bs : List β, l.mapM f = .ok bs := by
  intro l
  induction l with
  | nil => intro _; exact ⟨[], rfl⟩
  | cons a as ih =>
    intro h
    obtain ⟨b, hb⟩ := h a (List.mem_cons_self a as)
    obtain ⟨bs, hbs⟩ := ih (fun x hx => h x (List.mem_cons_of_mem a hx))
    refine ⟨b :: bs, ?_⟩
    rw [List.mapM_cons, hb, hbs]
    rfl

theorem parse_make_checkpoint_ok (t ns id : Str) :
    ∃ r, _parse_redis_checkpoint_key (_make_redis_checkpoint_key t ns id) = .ok r := by
  have hsplit := pySplit_make_checkpoint_gen t ns id
  have htl : 0 < (pySplit ':' t).length := List.length_pos.mpr (pySplit_ne_nil ':' t)
  have hil : 0 < (pySplit ':' id).length := List.length_pos.mpr (pySplit_ne_nil ':' id)
  simp only [_parse_redis_checkpoint_key, REDIS_KEY_SEPARATOR, hsplit]
  rw [if_neg (by simp)]
  rw [if_neg (by simp only [List.length_cons, List.length_append]; omega)]
  exact ⟨_, rfl⟩

theorem pendingWritesScan_ok {V M B : Type} [DecidableEq B] (serde : Serde V M B)
    (st : RedisState B) (t ns cid : Str)
    (hwf : ∀ p ∈ st.writes, ∃ r, _parse_redis_checkpoint_writes_key p.1 = .ok r) :
    ∃ pw, pendingWritesScan serde st t ns cid = .ok pw := by
  have hmk : ∀ k ∈ (st.writes.map Prod.fst).filter
      (fun k => globMatch (_make_redis_checkpoint_writes_key t ns cid ['*'] none) k),
      ∃ r, _parse_redis_checkpoint_writes_key k = .ok r := by
    intro k hk
    have hk2 : k ∈ st.writes.map Prod.fst := (List.mem_filter.mp hk).1
    obtain ⟨p, hp, hpk⟩ := List.mem_map.mp hk2
    rw [← hpk]
    exact hwf p hp
  obtain ⟨parsed, hparsed⟩ := mapM_ok _ _ hmk
  have hentry : ∀ kp ∈ pySortBy (fun a b => ! strLt b.2.idx a.2.idx)
      (((st.writes.map Prod.fst).filter
        (fun k => globMatch (_make_redis_checkpoint_writes_key t ns cid ['*'] none) k)).zip
        parsed),
      ∃ b, writeEntryFetch st kp = .ok b := by
    intro kp hkp
    have hz := (mem_pySortBy _ kp _).mp hkp
    have hk1 : kp.1 ∈ (st.writes.map Prod.fst).filter
        (fun k => globMatch (_make_redis_checkpoint_writes_key t ns cid ['*'] none) k) := by
      rcases kp with ⟨k1, k2⟩
      exact (List.of_mem_zip hz).1
    have hk2 : kp.1 ∈ st.writes.map Prod.fst := (List.mem_filter.mp hk1).1
    obtain ⟨d, hd⟩ := alookup_mem_keys st.writes kp.1 hk2
    exact ⟨((kp.2.task_id, kp.2.idx), d), by rw [writeEntryFetch, hd]; rfl⟩
  obtain ⟨entries, hentries⟩ := mapM_ok _ _ hentry
  refine ⟨_load_writes serde (entries.foldl (fun acc e => hset acc e.1 e.2) []), ?_⟩
  simp only [pendingWritesScan, hparsed, except_bind_ok, hentries]

theorem aget_tuple_explicit_id {V M B : Type} [DecidableEq B] (serde : Serde V M B)
    (bdecode : B → Option Str) (st : RedisState B) (t ns cid : Str)
    (hcid : cid ≠ [])
    (hwf : ∀ p ∈ st.writes, ∃ r, _parse_redis_checkpoint_writes_key p.1 = .ok r) :
    ∃ pw, aget_tuple serde bdecode st ⟨some t, some ns, some cid⟩ =
      _parse_redis_checkpoint_data serde bdecode
        (_make_redis_checkpoint_key t ns cid)
        (alookup st.checkpoints (_make_redis_checkpoint_key t ns cid)) (some pw) := by
  obtain ⟨pw, hpw⟩ := pendingWritesScan_ok serde st t ns cid hwf
  refine ⟨pw, ?_⟩
  simp only [aget_tuple, req, get_checkpoint_id, _aget_checkpoint_key, truthy,
    Option.getD, if_neg hcid, except_bind_ok, hpw]

/-- C2 (amended): `Put` followed by `GetTuple` at the same
`(thread_id, checkpoint_ns, checkpoint_id)` returns the stored checkpoint
exactly, provided `loads_typed` inverts `dumps_typed`; the metadata also
comes back exactly provided additionally that `loads` recovers the value
from the *text decoding* of the `dumps` output — the code decodes the
stored metadata bytes to `str` before calling `loads`, so the bytes-only
inverse law of the serializer contract is not enough (see the
counterexample).  The checkpoint id must be truthy and the pre-existing
pending-write keys parseable, which every key written by `aput_writes` is. -/
theorem put_get_roundtrip_amended {V M B : Type} [DecidableEq B]
    (serde : Serde V M B) (bdecode : B → Option Str)
    (checkpoint_id_of : V → Str) (ttl : Nat) (st : RedisState B)
    (t ns : Str) (pc : Option Str) (v : V) (m : M) (nv : List (Str × Str))
    (hty : ∀ v', serde.loads_typed (serde.dumps_typed v') = v')
    (hmeta : ∃ s, bdecode (serde.dumps m) = some s ∧ serde.loads (.inr s) = m)
    (hcid : checkpoint_id_of v ≠ [])
    (hwf : ∀ p ∈ st.writes, ∃ r, _parse_redis_checkpoint_writes_key p.1 = .ok r) :
    ∃ (st' : RedisState B) (tup : CheckpointTuple V M),
      aput serde checkpoint_id_of ttl st ⟨some t, some ns, pc⟩ v m nv =
        .ok (st', ⟨t, ns, checkpoint_id_of v⟩) ∧
      aget_tuple serde bdecode st' ⟨some t, some ns, some (checkpoint_id_of v)⟩ =
        .ok (some tup) ∧
      tup.checkpoint = v ∧ tup.metadata = m := by
  obtain ⟨ms, hms, hml⟩ := hmeta
  obtain ⟨pr, hpr⟩ := parse_make_checkpoint_ok t ns (checkpoint_id_of v)
  obtain ⟨pw, hget⟩ := aget_tuple_explicit_id serde bdecode
    (⟨hset st.checkpoints (_make_redis_checkpoint_key t ns (checkpoint_id_of v))
        { checkpoint := (serde.dumps_typed v).2, type_ := (serde.dumps_typed v).1,
          checkpoint_id := checkpoint_id_of v, metadata := serde.dumps m,
          parent_checkpoint_id := pc.getD [] },
      st.writes,
      hset st.ttls (_make_redis_checkpoint_key t ns (checkpoint_id_of v)) ttl⟩ :
        RedisState B)
    t ns (checkpoint_id_of v) hcid hwf
  have htup : _parse_redis_checkpoint_data serde bdecode
      (_make_redis_checkpoint_key t ns (checkpoint_id_of v))
      (some { checkpoint := (serde.dumps_typed v).2, type_ := (serde.dumps_typed v).1,
              checkpoint_id := checkpoint_id_of v, metadata := serde.dumps m,
              parent_checkpoint_id := pc.getD [] })
      (some pw) =
      .ok (some ⟨⟨pr.thread_id, pr.checkpoint_ns, pr.checkpoint_id⟩,
        serde.loads_typed ((serde.dumps_typed v).1, (serde.dumps_typed v).2),
        serde.loads (.inr ms),
        if pc.getD [] = [] then none
        else some ⟨pr.thread_id, pr.checkpoint_ns, pc.getD []⟩,
        some pw⟩) := by
    simp only [_parse_redis_checkpoint_data, hpr, except_bind_ok, hms]
  refine ⟨⟨hset st.checkpoints (_make_redis_checkpoint_key t ns (checkpoint_id_of v))
      { checkpoint := (serde.dumps_typed v).2, type_ := (serde.dumps_typed v).1,
        checkpoint_id := checkpoint_id_of v, metadata := serde.dumps m,
        parent_checkpoint_id := pc.getD [] },
      st.writes,
      hset st.ttls (_make_redis_checkpoint_key t ns (checkpoint_id_of v)) ttl⟩,
    ⟨⟨pr.thread_id, pr.checkpoint_ns, pr.checkpoint_id⟩,
      serde.loads_typed ((serde.dumps_typed v).1, (serde.dumps_typed v).2),
      serde.loads (.inr ms),
      if pc.getD [] = [] then none
      else some ⟨pr.thread_id, pr.checkpoint_ns, pc.getD []⟩,
      some pw⟩, rfl, ?_, ?_, ?_⟩
  · rw [hget]
    simp only [alookup_hset_self]
    exact htup
  · show serde.loads_typed ((serde.dumps_typed v).1, (serde.dumps_typed v).2) = v
    rw [Prod.mk.eta]
    exact hty v
  · exact hml

theorem put_get_roundtrip_amended_witness :
    ∃ (st' : RedisState (List Nat)) (tup : CheckpointTuple Bool Bool),
      aput serdeBool (fun _ => "c1".toList) 60 RedisState.empty
        ⟨some "t".toList, some [], none⟩ true false [] =
        .ok (st', ⟨"t".toList, [], "c1".toList⟩) ∧
      aget_tuple serdeBool asciiDecode st'
        ⟨some "t".toList, some [], some "c1".toList⟩ = .ok (some tup) ∧
      tup.checkpoint = true ∧ tup.metadata = false :=
  put_get_roundtrip_amended serdeBool asciiDecode (fun _ => "c1".toList) 60
    RedisState.empty "t".toList [] none true false []
    (by decide) ⟨[], by decide, by decide⟩ (by decide)
    (by simp [RedisState.empty])

theorem except_eq_ok_of_bind {ε α β : Type} {x : Except ε α} {f : α → Except ε β}
    {c : β} (h : x >>= f = .ok c) : ∃ a, x = .ok a ∧ f a = .ok c := by
  cases x with
  | ok a => exact ⟨a, rfl, h⟩
  | error e =>
    rw [except_bind_err] at h
    simp at h

theorem mapM_ok_forall_two {α β : Type} (f : α → Except Err β) :
    ∀ (l : List α) (bs : List β), l.mapM f = .ok bs →
      List.Forall₂ (fun a b => f a = .ok b) l bs := by
  intro l
  induction l with
  | nil =>
    intro bs h
    rw [List.mapM_nil] at h
    have hb : Except.ok ([] : List β) = Except.ok (ε := Err) bs := h
    have hb2 : ([] : List β) = bs := by simpa using hb
    rw [← hb2]
    exact List.Forall₂.nil
  | cons a as ih =>
    intro bs h
    rw [List.mapM_cons] at h
    obtain ⟨b, hb, h2⟩ := except_eq_ok_of_bind h
    obtain ⟨bs', hbs', h3⟩ := except_eq_ok_of_bind h2
    have h4 : Except.ok (b :: bs') = Except.ok (ε := Err) bs := h3
    have h5 : b :: bs' = bs := by simpa using h4
    rw [← h5]
    exact List.Forall₂.cons hb (ih bs' hbs')

theorem tagKey_ok_inv {k : Str} {kp : Str × Str} (h : tagKey k = .ok kp) :
    ∃ r, _parse_redis_checkpoint_key k = .ok r ∧ kp = (k, r.checkpoint_id) := by
  rw [tagKey] at h
  obtain ⟨r, hr, h2⟩ := except_eq_ok_of_bind h
  refine ⟨r, hr, ?_⟩
  simpa using h2.symm

theorem forall_two_mem_right {α β : Type} {R : α → β → Prop} :
    ∀ {l₁ : List α} {l₂ : List β}, List.Forall₂ R l₁ l₂ →
      ∀ b ∈ l₂, ∃ a ∈ l₁, R a b := by
  intro l₁ l₂ h
  induction h with
  | nil => intro b hb; simp at hb
  | cons h₁ h₂ ih =>
    intro b hb
    rcases List.mem_cons.mp hb with rfl | hb
    · exact ⟨_, List.mem_cons_self _ _, h₁⟩
    · obtain ⟨a, ha, hr⟩ := ih b hb
      exact ⟨a, List.mem_cons_of_mem _ ha, hr⟩

theorem mapM_tagKey_elem {keys : List Str} {tagged : List (Str × Str)}
    (h : keys.mapM tagKey = .ok tagged) :
    ∀ kp ∈ tagged, kp.1 ∈ keys ∧
      ∃ r, _parse_redis_checkpoint_key kp.1 = .ok r ∧ r.checkpoint_id = kp.2 := by
  intro kp hkp
  have hf := mapM_ok_forall_two tagKey keys tagged h
  obtain ⟨k, hk, htag⟩ := forall_two_mem_right hf kp hkp
  obtain ⟨r, hr, hkpe⟩ := tagKey_ok_inv htag
  subst hkpe
  exact ⟨hk, r, hr, rfl⟩

theorem filter_keys_spec (keys : List Str) (before : Option Str)
    (limit : Option Nat) (keys' : List Str)
    (h : _filter_keys keys before limit = .ok keys') :
    ∃ tagged : List (Str × Str),
      (∀ kp ∈ tagged, ∃ r, _parse_redis_checkpoint_key kp.1 = .ok r ∧
        r.checkpoint_id = kp.2) ∧
      tagged.Pairwise (fun a b => strLt a.2 b.2 = false) ∧
      (∀ bid, before = some bid → ∀ kp ∈ tagged, strLt kp.2 bid = true) ∧
      keys' = tagged.map Prod.fst ∧
      (∀ n, limit = some n → 0 < n → tagged.length ≤ n) := by
  have htrans : ∀ x y z : Str × Str, (! strLt x.2 y.2) = true →
      (! strLt y.2 z.2) = true → (! strLt x.2 z.2) = true := by
    intro x y z hxy hyz
    rw [Bool.not_eq_true'] at hxy hyz ⊢
    exact strLt_false_trans z.2 y.2 x.2 hyz hxy
  have htot : ∀ x y : Str × Str, (! strLt x.2 y.2) = false →
      (! strLt y.2 x.2) = true := by
    intro x y hxy
    rw [Bool.not_eq_false'] at hxy
    rw [Bool.not_eq_true']
    exact strLt_asymm x.2 y.2 hxy
  rw [_filter_keys.eq_def] at h
  obtain ⟨keys1, hk1, h2⟩ := except_eq_ok_of_bind h
  obtain ⟨tagged0, htag, h3⟩ := except_eq_ok_of_bind h2
  have hpairT : (pySortBy (fun a b => ! strLt a.2 b.2) tagged0).Pairwise
      (fun a b => strLt a.2 b.2 = false) := by
    have := pairwise_pySortBy (fun a b : Str × Str => ! strLt a.2 b.2) htrans htot tagged0
    exact this.imp (fun hx => by rwa [Bool.not_eq_true'] at hx)
  have helemT : ∀ kp ∈ pySortBy (fun a b => ! strLt a.2 b.2) tagged0,
      kp.1 ∈ keys1 ∧ ∃ r, _parse_redis_checkpoint_key kp.1 = .ok r ∧
        r.checkpoint_id = kp.2 := by
    intro kp hkp
    exact mapM_tagKey_elem htag kp ((mem_pySortBy _ kp _).mp hkp)
  have hbeforeT : ∀ bid, before = some bid →
      ∀ kp ∈ pySortBy (fun a b => ! strLt a.2 b.2) tagged0,
        strLt kp.2 bid = true := by
    intro bid hbid kp hkp
    subst hbid
    simp only [beforeFilter] at hk1
    obtain ⟨tg0, htg0, hpure⟩ := except_eq_ok_of_bind hk1
    have hkeys1 : keys1 = (tg0.filter (fun kp => strLt kp.2 bid)).map Prod.fst := by
      have : Except.ok ((tg0.filter (fun kp => strLt kp.2 bid)).map Prod.fst) =
          Except.ok (ε := Err) keys1 := hpure
      simpa using this.symm
    obtain ⟨hmem1, r, hr, hid⟩ := helemT kp hkp
    rw [hkeys1] at hmem1
    obtain ⟨kp0, hkp0f, hkp0e⟩ := List.mem_map.mp hmem1
    have hkp0 := List.mem_filter.mp hkp0f
    obtain ⟨hmem0, r0, hr0, hid0⟩ := mapM_tagKey_elem htg0 kp0 hkp0.1
    rw [← hkp0e] at hr
    rw [hr0] at hr
    have hrr : r0 = r := by simpa using hr
    have : kp.2 = kp0.2 := by
      rw [← hid, ← hid0, hrr]
    rw [this]
    exact hkp0.2
  cases limit with
  | none =>
    have hk : (pySortBy (fun a b => ! strLt a.2 b.2) tagged0).map Prod.fst = keys' := by
      have : Except.ok ((pySortBy (fun a b => ! strLt a.2 b.2) tagged0).map Prod.fst) =
          Except.ok (ε := Err) keys' := h3
      simpa using this
    refine ⟨pySortBy (fun a b => ! strLt a.2 b.2) tagged0,
      fun kp hkp => (helemT kp hkp).2, hpairT, hbeforeT, hk.symm, ?_⟩
    intro n hn
    cases hn
  | some n =>
    by_cases hn0 : n = 0
    · subst hn0
      have hk : (pySortBy (fun a b => ! strLt a.2 b.2) tagged0).map Prod.fst = keys' := by
        have : Except.ok (if 0 = 0 then
            (pySortBy (fun a b => ! strLt a.2 b.2) tagged0).map Prod.fst
          else ((pySortBy (fun a b => ! strLt a.2 b.2) tagged0).map Prod.fst).take 0) =
            Except.ok (ε := Err) keys' := h3
        simpa using this
      refine ⟨pySortBy (fun a b => ! strLt a.2 b.2) tagged0,
        fun kp hkp => (helemT kp hkp).2, hpairT, hbeforeT, hk.symm, ?_⟩
      intro m hm hpos
      have : m = 0 := by injection hm with h; exact h.symm
      omega
    · have hk : ((pySortBy (fun a b => ! strLt a.2 b.2) tagged0).map Prod.fst).take n =
          keys' := by
        have : Except.ok (if n = 0 then
            (pySortBy (fun a b => ! strLt a.2 b.2) tagged0).map Prod.fst
          else ((pySortBy (fun a b => ! strLt a.2 b.2) tagged0).map Prod.fst).take n) =
            Except.ok (ε := Err) keys' := h3
        rw [if_neg hn0] at this
        simpa using this
      refine ⟨(pySortBy (fun a b => ! strLt a.2 b.2) tagged0).take n, ?_, ?_, ?_, ?_, ?_⟩
      · intro kp hkp
        exact (helemT kp (List.take_subset n _ hkp)).2
      · exact List.Pairwise.sublist (List.take_sublist n _) hpairT
      · intro bid hbid kp hkp
        exact hbeforeT bid hbid kp (List.take_subset n _ hkp)
      · rw [← hk, List.map_take]
      · intro m hm _
        have hmn : m = n := by injection hm with h; exact h.symm
        rw [hmn]
        exact (List.length_take n _).le.trans (by simp)

theorem parse_data_some_inv {V M B : Type} [DecidableEq B] {serde : Serde V M B}
    {bdecode : B → Option Str} {k : Str} {d : CheckpointData B}
    {pw : Option (List (Str × Str × V))} {tup? : Option (CheckpointTuple V M)}
    (h : _parse_redis_checkpoint_data serde bdecode k (some d) pw = .ok tup?) :
    ∃ tup r, tup? = some tup ∧ _parse_redis_checkpoint_key k = .ok r ∧
      tup.config = ⟨r.thread_id, r.checkpoint_ns, r.checkpoint_id⟩ := by
  simp only [_parse_redis_checkpoint_data] at h
  obtain ⟨r, hr, h2⟩ := except_eq_ok_of_bind h
  cases hbd : bdecode d.metadata with
  | none =>
    rw [hbd] at h2
    simp [except_bind_err] at h2
  | some ms =>
    rw [hbd] at h2
    simp only [except_bind_ok] at h2
    have h4 : Except.ok (ε := Err)
        (some (⟨⟨r.thread_id, r.checkpoint_ns, r.checkpoint_id⟩,
          serde.loads_typed (d.type_, d.checkpoint), serde.loads (Sum.inr ms),
          if d.parent_checkpoint_id = [] then none
          else some ⟨r.thread_id, r.checkpoint_ns, d.parent_checkpoint_id⟩,
          pw⟩ : CheckpointTuple V M)) = .ok tup? := h2
    refine ⟨⟨⟨r.thread_id, r.checkpoint_ns, r.checkpoint_id⟩,
      serde.loads_typed (d.type_, d.checkpoint), serde.loads (Sum.inr ms),
      if d.parent_checkpoint_id = [] then none
      else some ⟨r.thread_id, r.checkpoint_ns, d.parent_checkpoint_id⟩,
      pw⟩, r, ?_, hr, rfl⟩
    simpa using h4.symm

theorem alistFetch_ids_sublist {V M B : Type} [DecidableEq B]
    (serde : Serde V M B) (bdecode : B → Option Str) (st : RedisState B) :
    ∀ (tagged : List (Str × Str)) (res : List (CheckpointTuple V M)),
      (∀ kp ∈ tagged, ∃ r, _parse_redis_checkpoint_key kp.1 = .ok r ∧
        r.checkpoint_id = kp.2) →
      alistFetch serde bdecode st (tagged.map Prod.fst) = .ok res →
      (res.map (fun tup => tup.config.checkpoint_id)).Sublist
        (tagged.map Prod.snd) := by
  intro tagged
  induction tagged with
  | nil =>
    intro res _ h
    have h2 : Except.ok (ε := Err) ([] : List (CheckpointTuple V M)) = .ok res := h
    have : ([] : List (CheckpointTuple V M)) = res := by simpa using h2
    rw [← this]
    simp
  | cons kp rest ih =>
    intro res hall h
    rw [List.map_cons] at h
    simp only [alistFetch] at h
    cases hl : alookup st.checkpoints kp.1 with
    | none =>
      rw [hl] at h
      have hs := ih res (fun x hx => hall x (List.mem_cons_of_mem kp hx)) h
      rw [List.map_cons]
      exact hs.cons kp.2
    | some d =>
      rw [hl] at h
      obtain ⟨tup?, htup, h2⟩ := except_eq_ok_of_bind h
      obtain ⟨rest', hrest, h3⟩ := except_eq_ok_of_bind h2
      obtain ⟨tup, r, htupe, hr, hcfg⟩ := parse_data_some_inv htup
      subst htupe
      have hres : tup :: rest' = res := by
        have h4 : Except.ok (ε := Err) (tup :: rest') = .ok res := h3
        simpa using h4
      rw [← hres]
      obtain ⟨r', hr', hid⟩ := hall kp (List.mem_cons_self kp rest)
      rw [hr] at hr'
      have hrr : r = r' := by simpa using hr'
      have hident : tup.config.checkpoint_id = kp.2 := by
        rw [hcfg]
        show r.checkpoint_id = kp.2
        rw [hrr]
        exact hid
      rw [List.map_cons, List.map_cons, hident]
      exact List.Sublist.cons₂ kp.2
        (ih rest' (fun x hx => hall x (List.mem_cons_of_mem kp hx)) hrest)

theorem pairwise_take_drop {α : Type} {R : α → α → Prop} (l : List α) (n : Nat)
    (h : l.Pairwise R) : ∀ x ∈ l.take n, ∀ y ∈ l.drop n, R x y := by
  rw [← List.take_append_drop n l] at h
  exact fun x hx y hy => (List.pairwise_append.mp h).2.2 x hx y hy

theorem filter_keys_limit_take (ks : List Str) (before : Option Str) (n : Nat)
    (keys2 keysAll : List Str)
    (hlim : _filter_keys ks before (some n) = .ok keys2)
    (hall : _filter_keys ks before none = .ok keysAll)
    (hpos : 0 < n) : keys2 = keysAll.take n := by
  rw [_filter_keys.eq_def] at hlim hall
  obtain ⟨keys1, hk1, h2⟩ := except_eq_ok_of_bind hlim
  obtain ⟨keys1a, hk1a, h2a⟩ := except_eq_ok_of_bind hall
  rw [hk1] at hk1a
  have e1 : keys1 = keys1a := by simpa using hk1a
  rw [← e1] at h2a
  obtain ⟨tg, htg, h3⟩ := except_eq_ok_of_bind h2
  obtain ⟨tga, htga, h3a⟩ := except_eq_ok_of_bind h2a
  rw [htg] at htga
  have e2 : tg = tga := by simpa using htga
  rw [← e2] at h3a
  have h3b : Except.ok (ε := Err) (if n = 0 then
      (pySortBy (fun a b => ! strLt a.2 b.2) tg).map Prod.fst
    else ((pySortBy (fun a b => ! strLt a.2 b.2) tg).map Prod.fst).take n) =
      .ok keys2 := h3
  have h3c : Except.ok (ε := Err)
      ((pySortBy (fun a b => ! strLt a.2 b.2) tg).map Prod.fst) = .ok keysAll := h3a
  rw [if_neg (by omega)] at h3b
  have e3 : ((pySortBy (fun a b => ! strLt a.2 b.2) tg).map Prod.fst).take n =
      keys2 := by simpa using h3b
  have e4 : (pySortBy (fun a b => ! strLt a.2 b.2) tg).map Prod.fst = keysAll := by
    simpa using h3c
  rw [← e3, e4]

/-- C6: whenever `alist` succeeds, the yielded tuples are sorted descending
by `checkpoint_id`; with `before` given, only tuples with checkpoint id
strictly below `before`'s id are included (so `before`'s own id and
everything above it is excluded); with a truthy (positive — see C8 for
zero) limit, at most `limit` tuples are produced, and the truncation
already happens on the key sequence inside `_filter_keys`, before any
record is fetched, keeping exactly the `limit` *most recent* surviving
keys: the truncated key sequence is the `limit`-prefix of the untruncated
descending-sorted survivor sequence, and every kept key's parsed
checkpoint id is at least every dropped survivor's. -/
theorem list_descending_before_strict_limited {V M B : Type} [DecidableEq B]
    (serde : Serde V M B) (bdecode : B → Option Str) (st : RedisState B)
    (t : Str) (nsOpt cid : Option Str) (before : Option Str)
    (limit : Option Nat) (res : List (CheckpointTuple V M))
    (hrun : alist serde bdecode st ⟨some t, nsOpt, cid⟩ before limit = .ok res) :
    (res.map (fun tup => tup.config.checkpoint_id)).Pairwise
      (fun a b => strLt a b = false) ∧
    (∀ bid, before = some bid →
      ∀ tup ∈ res, strLt tup.config.checkpoint_id bid = true) ∧
    (∀ n, limit = some n → 0 < n → res.length ≤ n) ∧
    (∀ (ks keys2 : List Str) (n : Nat), 0 < n →
      _filter_keys ks before (some n) = .ok keys2 → keys2.length ≤ n) ∧
    (∀ (ks keys2 keysAll : List Str) (n : Nat), 0 < n →
      _filter_keys ks before (some n) = .ok keys2 →
      _filter_keys ks before none = .ok keysAll →
      keys2 = keysAll.take n ∧
      ∀ k ∈ keys2, ∀ k' ∈ keysAll.drop n,
        strLt (parsedIdOf k) (parsedIdOf k') = false) := by
  simp only [alist, req, except_bind_ok] at hrun
  obtain ⟨keys', hfk, hfetch⟩ := except_eq_ok_of_bind hrun
  obtain ⟨tagged, helem, hpair, hbefore, hkeys, hlen⟩ :=
    filter_keys_spec _ _ _ _ hfk
  rw [hkeys] at hfetch
  have hsub := alistFetch_ids_sublist serde bdecode st tagged res helem hfetch
  refine ⟨?_, ?_, ?_, ?_, ?_⟩
  · have hp2 : (tagged.map Prod.snd).Pairwise (fun a b => strLt a b = false) :=
      hpair.map Prod.snd (fun _ _ hab => hab)
    exact List.Pairwise.sublist hsub hp2
  · intro bid hbid tup htup
    have hmm : tup.config.checkpoint_id ∈
        res.map (fun tup => tup.config.checkpoint_id) :=
      List.mem_map_of_mem _ htup
    have hmem := hsub.subset hmm
    obtain ⟨kp, hkp, hkpe⟩ := List.mem_map.mp hmem
    rw [← hkpe]
    exact hbefore bid hbid kp hkp
  · intro n hn hpos
    have h1 : res.length ≤ tagged.length := by
      have := hsub.length_le
      simpa using this
    exact h1.trans (hlen n hn hpos)
  · intro ks keys2 n hpos hfk2
    obtain ⟨tg2, _, _, _, hk2, hl2⟩ := filter_keys_spec ks before (some n) keys2 hfk2
    rw [hk2]
    simpa using hl2 n rfl hpos
  · intro ks keys2 keysAll n hpos hlim hall
    have htake := filter_keys_limit_take ks before n keys2 keysAll hlim hall hpos
    refine ⟨htake, ?_⟩
    obtain ⟨tgA, helemA, hpairA, _, hkA, _⟩ :=
      filter_keys_spec ks before none keysAll hall
    intro k hk k' hk'
    rw [htake, hkA, ← List.map_take] at hk
    rw [hkA, ← List.map_drop] at hk'
    obtain ⟨kpx, hkpx, hkpxe⟩ := List.mem_map.mp hk
    obtain ⟨kpy, hkpy, hkpye⟩ := List.mem_map.mp hk'
    have hx : parsedIdOf k = kpx.2 := by
      obtain ⟨r, hr, hrid⟩ := helemA kpx (List.take_subset n tgA hkpx)
      rw [← hkpxe]
      simp only [parsedIdOf, hr]
      exact hrid
    have hy : parsedIdOf k' = kpy.2 := by
      obtain ⟨r, hr, hrid⟩ := helemA kpy (List.drop_subset n tgA hkpy)
      rw [← hkpye]
      simp only [parsedIdOf, hr]
      exact hrid
    rw [hx, hy]
    exact pairwise_take_drop tgA n hpairA kpx hkpx kpy hkpy

theorem list_descending_before_strict_limited_witness :
    alist serdeBool asciiDecode c6_state4 ⟨some "t".toList, some [], none⟩
      (some "a4".toList) (some 2) = .ok c6_expected2 ∧
    (c6_expected2.map (fun tup => tup.config.checkpoint_id)).Pairwise
      (fun a b => strLt a b = false) ∧
    (∀ tup ∈ c6_expected2, strLt tup.config.checkpoint_id "a4".toList = true) ∧
    c6_expected2.length ≤ 2 ∧
    c6_keys_limited.length ≤ 2 ∧
    c6_keys_limited = c6_keys_all.take 2 ∧
    (∀ k ∈ c6_keys_limited, ∀ k' ∈ c6_keys_all.drop 2,
      strLt (parsedIdOf k) (parsedIdOf k') = false) :=
  have hrun : alist serdeBool asciiDecode c6_state4
      ⟨some "t".toList, some [], none⟩ (some "a4".toList) (some 2) =
      .ok c6_expected2 := by decide
  have hlim : _filter_keys c6_scan_keys (some "a4".toList) (some 2) =
      .ok c6_keys_limited := by decide
  have hall : _filter_keys c6_scan_keys (some "a4".toList) none =
      .ok c6_keys_all := by decide
  have h := list_descending_before_strict_limited serdeBool asciiDecode c6_state4
      "t".toList (some []) none (some "a4".toList) (some 2) c6_expected2 hrun
  ⟨hrun, h.1,
   fun tup htup => h.2.1 "a4".toList rfl tup htup,
   h.2.2.1 2 rfl (by decide),
   h.2.2.2.1 c6_scan_keys c6_keys_limited 2 (by decide) hlim,
   (h.2.2.2.2 c6_scan_keys c6_keys_limited c6_keys_all 2 (by decide) hlim hall).1,
   (h.2.2.2.2 c6_scan_keys c6_keys_limited c6_keys_all 2 (by decide) hlim hall).2⟩

theorem strLt_irrefl : ∀ s : Str, strLt s s = false := by
  intro s
  induction s with
  | nil => rfl
  | cons c cs ih =>
    show (if c.toNat < c.toNat then true
          else if c.toNat = c.toNat then strLt cs cs else false) = false
    rw [if_neg (by omega), if_pos rfl]
    exact ih

theorem strLt_trans :
    ∀ a b c : Str, strLt a b = true → strLt b c = true → strLt a c = true := by
  intro a
  induction a with
  | nil =>
    intro b c hab hbc
    cases c with
    | nil =>
      cases b with
      | nil => exact hab
      | cons y ys => exact absurd hbc (by simp [strLt])
    | cons z zs => rfl
  | cons x xs ih =>
    intro b c hab hbc
    cases b with
    | nil => exact absurd hab (by simp [strLt])
    | cons y ys =>
      cases c with
      | nil => exact absurd hbc (by simp [strLt])
      | cons z zs =>
        simp only [strLt] at hab hbc ⊢
        rcases Nat.lt_trichotomy x.toNat y.toNat with h1 | h1 | h1
        · rcases Nat.lt_trichotomy y.toNat z.toNat with h2 | h2 | h2
          · rw [if_pos (by omega)]
          · rw [if_pos (by omega)]
          · rw [if_neg (by omega), if_neg (by omega)] at hbc
            exact absurd hbc (by simp)
        · rw [if_neg (by omega), if_pos h1] at hab
          rcases Nat.lt_trichotomy y.toNat z.toNat with h2 | h2 | h2
          · rw [if_pos (by omega)]
          · rw [if_neg (by omega), if_pos h2] at hbc
            rw [if_neg (by omega), if_pos (by omega)]
            exact ih ys zs hab hbc
          · rw [if_neg (by omega), if_neg (by omega)] at hbc
            exact absurd hbc (by simp)
        · rw [if_neg (by omega), if_neg (by omega)] at hab
          exact absurd hab (by simp)

theorem pyMaxByAuxM_spec {α : Type} (f : α → Except Err Str) (g : α → Str) :
    ∀ (l : List α) (best : α), (∀ x ∈ l, f x = .ok (g x)) →
      ∃ m, pyMaxByAuxM f best (g best) l = .ok m ∧ (m = best ∨ m ∈ l) ∧
        strLt (g m) (g best) = false ∧ ∀ x ∈ l, strLt (g m) (g x) = false := by
  intro l
  induction l with
  | nil =>
    intro best _
    refine ⟨best, rfl, Or.inl rfl, strLt_irrefl (g best), ?_⟩
    intro x hx
    simp at hx
  | cons x xs ih =>
    intro best hall
    have hx := hall x (List.mem_cons_self x xs)
    have hrest : ∀ y ∈ xs, f y = .ok (g y) :=
      fun y hy => hall y (List.mem_cons_of_mem x hy)
    cases hcmp : strLt (g best) (g x) with
    | true =>
      obtain ⟨m, hm, hmem, hmb, hallm⟩ := ih x hrest
      refine ⟨m, ?_, ?_, ?_, ?_⟩
      · simp only [pyMaxByAuxM, hx, except_bind_ok, hcmp, if_pos rfl]
        exact hm
      · rcases hmem with rfl | hmem
        · exact Or.inr (List.mem_cons_self m xs)
        · exact Or.inr (List.mem_cons_of_mem x hmem)
      · cases hmb2 : strLt (g m) (g best) with
        | false => rfl
        | true =>
          have := strLt_trans (g m) (g best) (g x) hmb2 hcmp
          rw [this] at hmb
          cases hmb
      · intro y hy
        rcases List.mem_cons.mp hy with rfl | hy
        · exact hmb
        · exact hallm y hy
    | false =>
      obtain ⟨m, hm, hmem, hmb, hallm⟩ := ih best hrest
      refine ⟨m, ?_, ?_, hmb, ?_⟩
      · simp only [pyMaxByAuxM, hx, except_bind_ok, hcmp]
        rw [if_neg (by simp)]
        exact hm
      · rcases hmem with rfl | hmem
        · exact Or.inl rfl
        · exact Or.inr (List.mem_cons_of_mem x hmem)
      · intro y hy
        rcases List.mem_cons.mp hy with rfl | hy
        · exact strLt_false_trans (g y) (g best) (g m) hcmp hmb
        · exact hallm y hy

theorem pyMaxByM_spec {α : Type} (f : α → Except Err Str) (g : α → Str)
    (a0 : α) (l : List α) (hall : ∀ x ∈ a0 :: l, f x = .ok (g x)) :
    ∃ m, pyMaxByM f (a0 :: l) = .ok m ∧ m ∈ a0 :: l ∧
      ∀ x ∈ a0 :: l, strLt (g m) (g x) = false := by
  have h0 := hall a0 (List.mem_cons_self a0 l)
  have hrest : ∀ y ∈ l, f y = .ok (g y) :=
    fun y hy => hall y (List.mem_cons_of_mem a0 hy)
  obtain ⟨m, hm, hmem, hmb, hallm⟩ := pyMaxByAuxM_spec f g l a0 hrest
  refine ⟨m, ?_, ?_, ?_⟩
  · simp only [pyMaxByM, h0, except_bind_ok]
    exact hm
  · rcases hmem with rfl | hmem
    · exact List.mem_cons_self m l
    · exact List.mem_cons_of_mem a0 hmem
  · intro y hy
    rcases List.mem_cons.mp hy with rfl | hy
    · exact hmb
    · exact hallm y hy

theorem parsedIdOf_make (t ns id : Str) (hid : ':' ∉ id) :
    parsedIdOf (_make_redis_checkpoint_key t ns id) = id ∧
    (fun k => do
      let p ← _parse_redis_checkpoint_key k
      Except.ok p.checkpoint_id) (_make_redis_checkpoint_key t ns id) =
        .ok (parsedIdOf (_make_redis_checkpoint_key t ns id)) := by
  obtain ⟨r, hr, hrid⟩ := parse_make_checkpoint_id t ns id hid
  constructor
  · rw [parsedIdOf, hr]
    exact hrid
  · rw [parsedIdOf, hr]
    simp only [hr, except_bind_ok]

/-- C5 (amended): without an explicit checkpoint id, `GetTuple` resolves
the target by scanning the glob pattern `checkpoint:<thread>:<ns>:*`.
Provided every stored checkpoint key matching that pattern really is a key
of this `(thread_id, checkpoint_ns)` (no other namespace or thread collides
with the pattern — see the counterexample for what happens otherwise):
when nothing is stored under the address the result is absent (`None`,
not an error), and when something is stored the resolved key is a stored
key of this address whose `checkpoint_id` is lexicographically maximal
among all checkpoint ids stored under the address. -/
theorem latest_resolution_amended {V M B : Type} [DecidableEq B]
    (serde : Serde V M B) (bdecode : B → Option Str) (st : RedisState B)
    (t ns : Str)
    (hWF : ∀ p ∈ st.checkpoints,
      globMatch (_make_redis_checkpoint_key t ns ['*']) p.1 = true →
      ∃ id, ':' ∉ id ∧ p.1 = _make_redis_checkpoint_key t ns id) :
    ((∀ id, _make_redis_checkpoint_key t ns id ∉ st.checkpoints.map Prod.fst) →
      aget_tuple (V := V) (M := M) serde bdecode st ⟨some t, some ns, none⟩ =
        .ok none) ∧
    (∀ id0, _make_redis_checkpoint_key t ns id0 ∈ st.checkpoints.map Prod.fst →
      ∃ idmax, ':' ∉ idmax ∧
        _aget_checkpoint_key st t ns none =
          .ok (some (_make_redis_checkpoint_key t ns idmax)) ∧
        _make_redis_checkpoint_key t ns idmax ∈ st.checkpoints.map Prod.fst ∧
        ∀ id', _make_redis_checkpoint_key t ns id' ∈ st.checkpoints.map Prod.fst →
          strLt idmax id' = false) := by
  have hg : ∀ k ∈ (st.checkpoints.map Prod.fst).filter
      (fun k => globMatch (_make_redis_checkpoint_key t ns ['*']) k),
      ∃ id, ':' ∉ id ∧ k = _make_redis_checkpoint_key t ns id := by
    intro k hk
    have h1 := List.mem_filter.mp hk
    obtain ⟨p, hp, hpk⟩ := List.mem_map.mp h1.1
    have := hWF p hp (by rw [hpk]; exact h1.2)
    rw [hpk] at this
    exact this
  constructor
  · intro ha
    have hempty : (st.checkpoints.map Prod.fst).filter
        (fun k => globMatch (_make_redis_checkpoint_key t ns ['*']) k) = [] := by
      rw [List.filter_eq_nil_iff]
      intro k hk hgm
      obtain ⟨p, hp, hpk⟩ := List.mem_map.mp hk
      obtain ⟨id, _, hke⟩ := hWF p hp (by rw [hpk]; exact hgm)
      rw [hpk] at hke
      rw [hke] at hk
      exact ha id hk
    simp only [aget_tuple, req, get_checkpoint_id, Option.getD, except_bind_ok,
      _aget_checkpoint_key, truthy, hempty]
    rfl
  · intro id0 h0
    have hmem0 : _make_redis_checkpoint_key t ns id0 ∈
        (st.checkpoints.map Prod.fst).filter
          (fun k => globMatch (_make_redis_checkpoint_key t ns ['*']) k) :=
      List.mem_filter.mpr ⟨h0, globMatch_make_pattern t ns id0⟩
    have hfk : ∀ k ∈ (st.checkpoints.map Prod.fst).filter
        (fun k => globMatch (_make_redis_checkpoint_key t ns ['*']) k),
        (fun k => do
          let p ← _parse_redis_checkpoint_key k
          Except.ok p.checkpoint_id) k = .ok (parsedIdOf k) := by
      intro k hk
      obtain ⟨id, hid, hke⟩ := hg k hk
      rw [hke]
      exact (parsedIdOf_make t ns id hid).2
    cases hne : (st.checkpoints.map Prod.fst).filter
        (fun k => globMatch (_make_redis_checkpoint_key t ns ['*']) k) with
    | nil =>
      rw [hne] at hmem0
      simp at hmem0
    | cons a0 rest =>
      rw [hne] at hfk
      obtain ⟨m, hmax, hmm, hmaxall⟩ := pyMaxByM_spec
        (fun k => do
          let p ← _parse_redis_checkpoint_key k
          Except.ok p.checkpoint_id) parsedIdOf a0 rest hfk
      have hmallk : m ∈ (st.checkpoints.map Prod.fst).filter
          (fun k => globMatch (_make_redis_checkpoint_key t ns ['*']) k) := by
        rw [hne]
        exact hmm
      obtain ⟨idm, hidm, hme⟩ := hg m hmallk
      have hgm : parsedIdOf m = idm := by
        rw [hme]
        exact (parsedIdOf_make t ns idm hidm).1
      refine ⟨idm, hidm, ?_, ?_, ?_⟩
      · simp only [_aget_checkpoint_key, truthy, hne]
        rw [if_neg (by simp)]
        simp only [hmax, except_bind_ok]
        rw [← hme]
      · rw [← hme]
        exact (List.mem_filter.mp hmallk).1
      · intro id' hid'
        have hmem' : _make_redis_checkpoint_key t ns id' ∈
            (st.checkpoints.map Prod.fst).filter
              (fun k => globMatch (_make_redis_checkpoint_key t ns ['*']) k) :=
          List.mem_filter.mpr ⟨hid', globMatch_make_pattern t ns id'⟩
        obtain ⟨id'', hid''c, hkee⟩ := hg _ hmem'
        have hide : id' = id'' := make_checkpoint_key_inj_id t ns id' id'' hkee
        have hid'c : ':' ∉ id' := by
          rw [hide]
          exact hid''c
        have hgk' : parsedIdOf (_make_redis_checkpoint_key t ns id') = id' :=
          (parsedIdOf_make t ns id' hid'c).1
        have hmem'' : _make_redis_checkpoint_key t ns id' ∈ a0 :: rest := by
          rw [← hne]
          exact hmem'
        have hfin := hmaxall _ hmem''
        rw [hgm, hgk'] at hfin
        exact hfin

/-- C5 counterexample: no checkpoint key is stored under `(t, "n")` — the
only stored key decodes to namespace `"n:z"` — yet `GetTuple` for
`(t, "n")` without an explicit id returns that foreign-namespace record
instead of absent, because the backend glob scan `checkpoint:t:n:*` also
matches keys of any namespace extending `"n"` past a separator. -/
theorem latest_resolution_cross_namespace :
    _parse_redis_checkpoint_key
        (_make_redis_checkpoint_key "t".toList "n:z".toList "b".toList) =
      .ok ⟨"t".toList, "n:z".toList, "b".toList⟩ ∧
    ("n:z".toList : Str) ≠ "n".toList ∧
    aget_tuple serdeBool asciiDecode c5_state
      ⟨some "t".toList, some "n".toList, none⟩ =
      .ok (some ⟨⟨"t".toList, "n:z".toList, "b".toList⟩, true, false, none,
        some []⟩) ∧
    (Except.ok (some (⟨⟨"t".toList, "n:z".toList, "b".toList⟩, true, false,
        none, some []⟩ : CheckpointTuple Bool Bool)) :
      Except Err (Option (CheckpointTuple Bool Bool))) ≠ .ok none := by decide

theorem latest_resolution_amended_witness :
    ∃ idmax, ':' ∉ idmax ∧
      _aget_checkpoint_key c6_state "t".toList [] none =
        .ok (some (_make_redis_checkpoint_key "t".toList [] idmax)) ∧
      _make_redis_checkpoint_key "t".toList [] idmax ∈
        c6_state.checkpoints.map Prod.fst ∧
      ∀ id', _make_redis_checkpoint_key "t".toList [] id' ∈
          c6_state.checkpoints.map Prod.fst →
        strLt idmax id' = false :=
  (latest_resolution_amended serdeBool asciiDecode c6_state "t".toList []
    (by
      intro p hp hg
      simp only [c6_state, List.mem_cons, List.not_mem_nil, or_false] at hp
      rcases hp with rfl | rfl | rfl
      · exact ⟨"a2".toList, by decide, rfl⟩
      · exact ⟨"a1".toList, by decide, rfl⟩
      · exact ⟨"a3".toList, by decide, rfl⟩)).2
    "a2".toList (by decide)
